import Mathlib

/-!
Verification development for the mini-buildd packager/builder pipeline.

The first half of this file embeds the relevant parts of the source
(ftpd.py, misc.py, packager.py, changes.py, daemon.py) as executable Lean
definitions; the second half proves the specification claims about them.
Strings that are parsed character by character are modelled as `List Char`;
opaque identifiers (package ids, architectures, URLs) are modelled as
`String`.
-/

set_option autoImplicit false

namespace MiniBuildd

variable {α : Type}

/-- Stable insertion into an already sorted list: the new element is placed
after every element strictly below it.  Folding this from the right models
the semantics of Python's stable `sorted(...)`. -/
def stableInsert (lt : α → α → Bool) (x : α) : List α → List α
  | [] => [x]
  | y :: ys => if lt y x then y :: stableInsert lt x ys else x :: y :: ys

/-- Stable ascending sort (the semantics of Python `sorted` with a key). -/
def stableSort (lt : α → α → Bool) (l : List α) : List α :=
  l.foldr (stableInsert lt) []

/-- Does `pat` occur as a contiguous substring of `s`? -/
def containsSub (pat : List Char) : List Char → Bool
  | [] => pat.isPrefixOf []
  | c :: rest => pat.isPrefixOf (c :: rest) || containsSub pat rest

/-- Python `str.split(sep)` for a single-character separator. -/
def splitOnChar (sep : Char) : List Char → List (List Char)
  | [] => [[]]
  | c :: rest =>
    match splitOnChar sep rest with
    | [] => [[c]]
    | h :: t => if c = sep then [] :: h :: t else (c :: h) :: t

/-- Python `sep.join(parts)` for a single-character separator. -/
def joinSep (sep : Char) : List (List Char) → List Char
  | [] => []
  | [x] => x
  | x :: y :: t => x ++ sep :: joinSep sep (y :: t)

namespace Ftpd

/-- Source: ftpd.py, Incoming.requeue_changes sort key,
fnmatch.fnmatch(c, "*mini-buildd-build*") as a substring test. -/
def isBuildChanges (c : String) : Bool :=
  containsSub "mini-buildd-build".toList c.toList

/-- The sort key: 1 for names matching the build pattern, 0 otherwise. -/
def requeueKey (c : String) : Nat := if isBuildChanges c then 1 else 0

def requeueLt (a b : String) : Bool := requeueKey a < requeueKey b

/-- Source: ftpd.py, Incoming.requeue_changes: the queue receives the
pre-existing changes files sorted (stably) by the key above. -/
def requeueChanges (files : List String) : List String :=
  stableSort requeueLt files

end Ftpd

namespace Dist

/-- Python regex class `\w` (a word character), on the ASCII alphabet the
source and the spec both work over. -/
def isWordChar (c : Char) : Bool := c.isAlphanum || c = '_'

/-- A nonempty run of word characters (`\w+`). -/
def isWordRun (w : List Char) : Bool := !w.isEmpty && w.all isWordChar

def rollbackLit : List Char := "rollback".toList

/-- The trailing `rollback\d+` component: the literal word followed by a
nonempty run of decimal digits. -/
def isRollbackPart (r : List Char) : Bool :=
  rollbackLit.isPrefixOf r && !(r.drop 8).isEmpty && (r.drop 8).all Char.isDigit

/-- Source: misc.py, Distribution._REGEX, the language of
`^\w+-\w+-\w+?(-rollback\d+)?$` expressed through the split on the dashes
(word characters never contain a dash, so a full match is exactly a
three or four way split of the shape below). -/
def distRegexMatches (s : List Char) : Bool :=
  match splitOnChar '-' s with
  | [c, r, su] => isWordRun c && isWordRun r && isWordRun su
  | [c, r, su, rb] => isWordRun c && isWordRun r && isWordRun su && isRollbackPart rb
  | _ => false

/-- Source: misc.py, class Distribution: the stored state is the dash-split
of the accepted distribution string. -/
structure Distribution where
  dsplit : List (List Char)
deriving Repr, DecidableEq

/-- Source: misc.py, Distribution.__init__: raise unless the regex matches,
else store the dash-split. -/
def parseDistribution (s : List Char) : Option Distribution :=
  if distRegexMatches s then some ⟨splitOnChar '-' s⟩ else none

/-- Source: misc.py, Distribution.get() with rollback=True. -/
def Distribution.get (d : Distribution) : List Char := joinSep '-' d.dsplit

def Distribution.codename (d : Distribution) : List Char := d.dsplit.getD 0 []

def Distribution.repoId (d : Distribution) : List Char := d.dsplit.getD 1 []

def Distribution.suite (d : Distribution) : List Char := d.dsplit.getD 2 []

def Distribution.isRollback (d : Distribution) : Bool := d.dsplit.length = 4

/-- Source: misc.py, Distribution.rollback (None unless a rollback split). -/
def Distribution.rollback (d : Distribution) : Option (List Char) :=
  if d.dsplit.length = 4 then some (d.dsplit.getD 3 []) else none

/-- Decimal value of a digit string (Python `int`). -/
def digitsToNat (l : List Char) : Nat :=
  l.foldl (fun n c => 10 * n + (c.toNat - 48)) 0

/-- Source: misc.py, Distribution.rollback_no:
`int(re.sub(r"\D", "", rollback))`. -/
def Distribution.rollbackNo (d : Distribution) : Option Nat :=
  d.rollback.map (fun r => digitsToNat (r.filter Char.isDigit))

/-- The claim-side language of `^\w+-\w+-\w+(-rollback\d+)?$`, written out
structurally, for stating the negative half of the round-trip claim. -/
def SpecDistMatch (s : List Char) : Prop :=
  ∃ c r su : List Char, isWordRun c = true ∧ isWordRun r = true ∧ isWordRun su = true ∧
    (s = c ++ ('-' :: (r ++ ('-' :: su))) ∨
      ∃ ds : List Char, ds ≠ [] ∧ ds.all Char.isDigit = true ∧
        s = c ++ ('-' :: (r ++ ('-' :: (su ++ ('-' :: (rollbackLit ++ ds)))))))

end Dist

namespace Pkg

/-- Source: packager.py, the Package stati (class constants FAILED .. INSTALLED). -/
inductive PStatus
  | failed
  | rejected
  | checking
  | building
  | installing
  | installed
deriving Repr, DecidableEq

/-- Modelled from the spec: the per-distribution lintian mode constants.
The module models/repository.py holding the Distribution model is not in
the tree; the spec lists the modes disabled, run-only, fail-on-error,
fail-on-warning in that order, and packager.py compares them with `<`. -/
def LINTIAN_DISABLED : Nat := 0

def LINTIAN_RUN_ONLY : Nat := 1

def LINTIAN_FAIL_ON_ERROR : Nat := 2

def LINTIAN_FAIL_ON_WARNING : Nat := 3

/-- Assoc-list lookup: reading a Python dict (keys are unique). -/
def alookup {β : Type} (k : String) : List (String × β) → Option β
  | [] => none
  | (k2, v) :: rest => if k2 = k then some v else alookup k rest

/-- Assoc-list update: Python dict assignment d[k] = v. -/
def ainsert {β : Type} (k : String) (v : β) : List (String × β) → List (String × β)
  | [] => [(k, v)]
  | (k2, v2) :: rest => if k2 = k then (k2, v) :: rest else (k2, v2) :: ainsert k v rest

/-- Assoc-list removal: Python `del d[k]` (dict keys are unique, so
removing every binding of the key is the same operation). -/
def aerase {β : Type} (k : String) (l : List (String × β)) : List (String × β) :=
  l.filter (fun kv => decide (kv.1 ≠ k))

/-- The parsed upload options the packager consults: the plain and the
per-architecture "ignore-lintian" values (changes.py, Changes.Options). -/
structure Options where
  ignoreLintian : Option Bool
  ignoreLintianArch : List (String × Bool)
deriving Repr, DecidableEq

/-- Source: changes.py, Changes.Options.get(key, alt, default) for the key
"ignore-lintian" with default False: the per-architecture variant is
consulted only when `alt` is truthy, i.e. a nonempty architecture string. -/
def Options.getIgnoreLintian (o : Options) (arch : String) : Bool :=
  if arch ≠ "" then
    match alookup arch o.ignoreLintianArch with
    | some b => b
    | none => o.ignoreLintian.getD false
  else o.ignoreLintian.getD false

/-- A build-result manifest as the packager reads it: the fields of
packager.py Package.add_buildresult, plus the outcome of the
remotes-keyring verification of the manifest file. -/
structure Bres where
  arch : String
  sbuildretval : Int
  sbuildStatus : Option String
  sbuildLintian : Option String
  verifies : Bool
deriving Repr, DecidableEq

/-- Source: packager.py, class Package: the per-upload in-flight state
(the configuration snapshot fields it reads are inlined). -/
structure Package where
  status : PStatus
  statusDesc : Option String
  finished : Bool
  suiteExperimental : Bool
  lintianMode : Nat
  options : Options
  requests : List String
  success : List (String × Bres)
  failed : List (String × Bres)
deriving Repr, DecidableEq

/-- Source: packager.py, the nested check_lintian in add_buildresult. -/
def checkLintian (p : Package) (lintian : Option String) (arch : String) : Bool :=
  (lintian == some "pass") || p.suiteExperimental ||
    decide (p.lintianMode < LINTIAN_FAIL_ON_ERROR) || p.options.getIgnoreLintian arch

/-- Source: packager.py, add_buildresult: the success condition
`retval == 0 and (status == "skipped" or check_lintian(arch))`. -/
def bresSuccess (p : Package) (b : Bres) : Bool :=
  (b.sbuildretval == 0) &&
    ((b.sbuildStatus == some "skipped") || checkLintian p b.sbuildLintian b.arch)

/-- Source: packager.py, Package.add_buildresult.  The remotes-keyring
verification comes first and raises on failure; then the result is
recorded under its Architecture field, and the finished timestamp is set
when `len(requests) - len(success) - len(failed) <= 0`. -/
def addBuildresult (p : Package) (b : Bres) : Except String Package :=
  if !b.verifies then .error "SignatureRejected"
  else
    let p1 :=
      if bresSuccess p b then
        { p with success := ainsert b.arch b p.success }
      else
        { p with failed := ainsert b.arch b p.failed }
    let missing : Int := (p1.requests.length : Int) - p1.success.length - p1.failed.length
    .ok (if missing ≤ 0 then { p1 with finished := true } else p1)

/-- The daemon's in-flight packages dict. -/
structure DaemonState where
  packages : List (String × Package)
deriving Repr, DecidableEq

/-- Source: packager.py, package_close: move_to_pkglog, notify and the
last-packages statistics may raise (modelled by the _closeErr flag), but
the finally block always removes the package from the packages dict. -/
def packageClose (d : DaemonState) (pid : String) (_closeErr : Bool) : DaemonState :=
  { d with packages := aerase pid d.packages }

/-- The outcome of Package.precheck() (distribution parsing, authorization,
repository precheck and buildrequest fan-out), abstracted as an oracle:
either the configuration fields precheck fills in, or the exception. -/
structure PrecheckOk where
  suiteExperimental : Bool
  lintianMode : Nat
  options : Options
  requests : List String
deriving Repr, DecidableEq

def defaultCfg : PrecheckOk :=
  { suiteExperimental := false, lintianMode := 0, options := ⟨none, []⟩, requests := [] }

/-- An ingest event as handled by packager.run: a build result (with the
environment outcomes of the install and close steps), or a user upload
(with the outcome of precheck). -/
inductive Event
  | bres (pid : String) (b : Bres) (installOk : Bool) (closeErr : Bool)
  | upload (pid : String) (pre : Except String PrecheckOk) (closeErr : Bool)

/-- A Package object as packager.py constructs it (__init__ plus the
fields precheck fills in, with the given status). -/
def mkPackage (st : PStatus) (desc : Option String) (cfg : PrecheckOk) : Package :=
  { status := st
    statusDesc := desc
    finished := false
    suiteExperimental := cfg.suiteExperimental
    lintianMode := cfg.lintianMode
    options := cfg.options
    requests := cfg.requests
    success := []
    failed := [] }

/-- Source: packager.py, run(daemon, changes): the transition one ingest
event makes on the daemon's packages dict.  A build result for an unknown
pid raises the stray-result exception to the caller (no state change); an
exception inside add_buildresult or install marks the package FAILED and
closes it; a finished package is installed, marked INSTALLED and closed;
an upload is entered into the dict and either survives precheck in state
BUILDING or is marked REJECTED and closed. -/
def run (d : DaemonState) (ev : Event) : DaemonState :=
  match ev with
  | .bres pid b installOk closeErr =>
    match alookup pid d.packages with
    | none => d
    | some p =>
      match addBuildresult p b with
      | .error e =>
          packageClose
            ⟨ainsert pid { p with status := .failed, statusDesc := some e } d.packages⟩
            pid closeErr
      | .ok p1 =>
          if p1.finished then
            if installOk then
              packageClose ⟨ainsert pid { p1 with status := .installed } d.packages⟩ pid closeErr
            else
              packageClose ⟨ainsert pid { p1 with status := .failed } d.packages⟩ pid closeErr
          else
            ⟨ainsert pid p1 d.packages⟩
  | .upload pid pre closeErr =>
    match alookup pid d.packages with
    | some _ => d
    | none =>
      match pre with
      | .ok cfg => ⟨ainsert pid (mkPackage .building none cfg) d.packages⟩
      | .error e =>
          packageClose
            ⟨ainsert pid (mkPackage .rejected (some e) defaultCfg) d.packages⟩ pid closeErr

/-- The lintian acceptance condition in the words of claim C3: the
per-architecture ignore-lintian variant takes precedence
unconditionally. -/
def LintianAcceptedClaim (p : Package) (b : Bres) : Prop :=
  b.sbuildLintian = some "pass" ∨ p.suiteExperimental = true ∨
    p.lintianMode < LINTIAN_FAIL_ON_ERROR ∨
    (match alookup b.arch p.options.ignoreLintianArch with
      | some v => v
      | none => p.options.ignoreLintian.getD false) = true

/-- The lintian acceptance condition as amended: the per-architecture
variant takes precedence only for a nonempty architecture string (this is
exactly the truthiness test in Changes.Options.get). -/
def LintianAcceptedAmended (p : Package) (b : Bres) : Prop :=
  b.sbuildLintian = some "pass" ∨ p.suiteExperimental = true ∨
    p.lintianMode < LINTIAN_FAIL_ON_ERROR ∨
    p.options.getIgnoreLintian b.arch = true

end Pkg

namespace Dispatch

/-- A remote builder status as consumed by changes.py upload_buildrequest
(api/__init__.py Status): the running flag, the load, the chroots map, the
HTTP url monkey-patched onto the status, and the outcome an FTP upload
attempt to this builder's endpoint would have.  Loads are modelled as
fixed-point integers (tenths): the ordering and equality of loads are all the code uses. -/
structure RemoteStatus where
  running : Bool
  load : Int
  chroots : List (String × List String)
  url : String
  acceptsUpload : Bool
deriving DecidableEq

/-- Source: api/__init__.py, Status.has_chroot(codename, arch):
`codename in self.chroots and arch in self.chroots[codename]`. -/
def hasChroot (st : RemoteStatus) (codename arch : String) : Bool :=
  match Pkg.alookup codename st.chroots with
  | some archs => archs.contains arch
  | none => false

/-- Python dict assignment keyed by a rational (the load). -/
def qinsert (k : Int) (v : RemoteStatus) : List (Int × RemoteStatus) → List (Int × RemoteStatus)
  | [] => [(k, v)]
  | (k2, v2) :: rest => if k2 = k then (k2, v) :: rest else (k2, v2) :: qinsert k v rest

/-- Source: changes.py upload_buildrequest, add_remote: a refreshed status
is retained iff it is running and its chroots map offers (codename, arch);
retained statuses land in a dict keyed by their load, so a later candidate
with the same load displaces the earlier one. -/
def addRemote (codename arch : String) (m : List (Int × RemoteStatus)) (st : RemoteStatus) :
    List (Int × RemoteStatus) :=
  if st.running && hasChroot st codename arch then qinsert st.load st m else m

/-- Source: changes.py upload_buildrequest: our own instance is added as
pseudo remote first, then every active remote is checked; check_remote
catches status-refresh failures (a failed refresh, modelled as none, just
skips that remote). -/
def buildRemotes (codename arch : String) (selfSt : RemoteStatus)
    (remotes : List (Option RemoteStatus)) : List (Int × RemoteStatus) :=
  remotes.foldl
    (fun m r =>
      match r with
      | some st => addRemote codename arch m st
      | none => m)
    (addRemote codename arch [] selfSt)

def loadLt (a b : Int × RemoteStatus) : Bool := a.1 < b.1

/-- Python sorted(remotes.items()): ascending in the (unique) load keys. -/
def sortByLoad (m : List (Int × RemoteStatus)) : List (Int × RemoteStatus) :=
  stableSort loadLt m

/-- The upload loop: try each sorted candidate until one accepts; returns
the attempted candidates in order and the successful one, if any. -/
def attemptUploads : List (Int × RemoteStatus) → List RemoteStatus × Option RemoteStatus
  | [] => ([], none)
  | (_, st) :: rest =>
    if st.acceptsUpload then ([st], some st)
    else
      let r := attemptUploads rest
      (st :: r.1, r.2)

/-- Source: changes.py, Changes.upload_buildrequest: build the candidate
dict, raise if it is empty, else attempt the FTP upload on the candidates
in ascending load order; on success the chosen builder's HTTP url is
recorded on the manifest (self.remote_http_url), on exhaustion raise. -/
def uploadBuildrequest (codename arch : String) (selfSt : RemoteStatus)
    (remotes : List (Option RemoteStatus)) :
    List RemoteStatus × Except String String :=
  let m := buildRemotes codename arch selfSt remotes
  if m.isEmpty then ([], .error "No builder found")
  else
    match attemptUploads (sortByLoad m) with
    | (att, some st) => (att, .ok st.url)
    | (att, none) => (att, .error "Buildrequest upload failed")

/-- Candidate eligibility in the claim's words: refreshed status running
and the chroots map offering (codename, arch). -/
def eligible (codename arch : String) (st : RemoteStatus) : Bool :=
  st.running && hasChroot st codename arch

/-- The refreshed statuses in check order: self first, then the remotes
whose status refresh succeeded. -/
def checkedStatuses (selfSt : RemoteStatus) (remotes : List (Option RemoteStatus)) :
    List RemoteStatus :=
  selfSt :: remotes.reduceOption

end Dispatch

namespace Changes

/-- Source: changes.py, the three changes file types. -/
inductive CType
  | default
  | breq
  | bres
deriving Repr, DecidableEq

/-- Source: changes.py, TYPE2FILENAME_ID. -/
def TYPE2FILENAME_ID : CType → List Char
  | .default => []
  | .breq => "_mini-buildd-buildrequest".toList
  | .bres => "_mini-buildd-buildresult".toList

/-- Source: misc.py, strip_epoch: `version.rpartition(":")[2]`, the part
after the last colon (the whole string when there is no colon). -/
def stripEpoch (v : List Char) : List Char :=
  (v.reverse.takeWhile (fun c => !(c = ':'))).reverse

/-- Source: changes.py, Changes.gen_changes_file_name:
PACKAGE_VERSION[+ID]_ARCH.changes with the epoch stripped. -/
def genChangesFileName (package version arch : List Char) (t : CType) : List Char :=
  package ++
    ('_' :: (stripEpoch version ++ (TYPE2FILENAME_ID t ++ ('_' :: (arch ++ ".changes".toList)))))

/-- The tail `[^_]+.changes$` of the classification regexes: a nonempty
underscore-free run, one arbitrary non-newline character (the unescaped
dot), then the literal changes, anchored at the end. -/
def tailMatch (r : List Char) : Bool :=
  decide (9 ≤ r.length) && (r.drop (r.length - 7) == "changes".toList) &&
    (r.take (r.length - 8)).all (fun c => !(c = '_')) &&
    ((r.drop (r.length - 8)).take 1).all (fun c => !(c = '\n'))

/-- Scan for an occurrence of the literal followed by the tail pattern at
any position; the characters skipped over stand under the regex's `.+`
and thus must not be newlines. -/
def litScan (lit : List Char) : List Char → Bool
  | [] => false
  | c :: rest =>
    (lit.isPrefixOf (c :: rest) && tailMatch ((c :: rest).drop lit.length)) ||
      (!(c = '\n') && litScan lit rest)

/-- Source: changes.py, BUILDREQUEST_RE / BUILDRESULT_RE:
`^.+` plus the filename id plus `_[^_]+.changes$`; the mandatory `.+`
consumes at least one non-newline character before the literal. -/
def changesMatch (lit : List Char) : List Char → Bool
  | [] => false
  | c :: rest => !(c = '\n') && litScan lit rest

def breqLit : List Char := "_mini-buildd-buildrequest_".toList

def bresLit : List Char := "_mini-buildd-buildresult_".toList

/-- Source: changes.py, Changes.__init__: classification of a changes file
name (buildrequest pattern first, then buildresult, else a user upload). -/
def classify (name : List Char) : CType :=
  if changesMatch breqLit name then .breq
  else if changesMatch bresLit name then .bres
  else .default

/-- An occurrence of the literal at some position, pre possibly empty:
the proposition `litScan` decides. -/
def Occurs0 (lit s : List Char) : Prop :=
  ∃ pre post : List Char,
    s = pre ++ lit ++ post ∧ (∀ c ∈ pre, c ≠ '\n') ∧ tailMatch post = true

/-- An occurrence with a nonempty prefix: the proposition `changesMatch`
decides. -/
def Occurs1 (lit s : List Char) : Prop :=
  ∃ pre post : List Char,
    s = pre ++ lit ++ post ∧ pre ≠ [] ∧ (∀ c ∈ pre, c ≠ '\n') ∧ tailMatch post = true

end Changes

namespace Ver

/-- Source: daemon.py, DebianVersion.gen_internal_rebuild passes the literal
part `\+rebuilt` of its pattern, and `"+rebuilt"` as the head of the
replacement. -/
def rebuiltLit : List Char := "+rebuilt".toList

/-- Source: daemon.py, DebianVersion.stamp_regex: `[0-9]{14}` (the length of a
`%Y%m%d%H%M%S` stamp is 14). A candidate stamp window matches iff it consists
of exactly 14 ASCII digits. -/
def stampOk (s : List Char) : Bool := s.length == 14 && s.all Char.isDigit

/-- Does the regex `\+rebuilt[0-9]{14}` match at the start of `s`? The first 8
characters must be the literal, the next 14 a digit stamp. -/
def matchHead (s : List Char) : Bool :=
  rebuiltLit.isPrefixOf s && stampOk ((s.drop 8).take 14)

/-- Source: daemon.py, DebianVersion._sub_rightmost via `re.finditer`: the
scan yields the non-overlapping matches left to right and `_sub_rightmost`
keeps the last one. For this pattern, matches can never overlap: the only `+`
inside a match is its first character (positions 1-7 are the letters of
`rebuilt` and positions 8-21 are digits), so a second match cannot start
inside a match's 22-character span. Hence the finditer matches are precisely
the positions where the pattern matches, and the rightmost such position is
returned here as the decomposition (characters before the match, the 14-digit
stamp, characters after the match). -/
def findRightmost : List Char → Option (List Char × List Char × List Char)
  | [] => none
  | c :: rest =>
    match findRightmost rest with
    | some (p2, s2, t2) => some (c :: p2, s2, t2)
    | none =>
      if matchHead (c :: rest) then
        some ([], ((c :: rest).drop 8).take 14, (c :: rest).drop 22)
      else none

/-- The number of finditer matches of `\+rebuilt[0-9]{14}` in `s` (claim-side
counting device for "the stamp-bearing suffix appears at most once"); by the
no-overlap property above this is the number of positions where the pattern
matches. -/
def countStamps : List Char → Nat
  | [] => 0
  | c :: rest => (if matchHead (c :: rest) then 1 else 0) + countStamps rest

/-- Source: daemon.py, DebianVersion.gen_internal_rebuild, parameterised by
the 14-digit time stamp: `_sub_rightmost` splices
`string[:start] + "+rebuilt" + stamp + string[end:]` around the rightmost
match, or appends `"+rebuilt" + stamp` when there is no match. -/
def genInternalRebuild (stamp v : List Char) : List Char :=
  match findRightmost v with
  | some (p, _, suf) => p ++ (rebuiltLit ++ (stamp ++ suf))
  | none => v ++ (rebuiltLit ++ stamp)

end Ver

end MiniBuildd

namespace MiniBuildd

theorem stableInsert_of_forall_not {α : Type} {lt : α → α → Bool} {x : α} {l : List α}
    (h : ∀ y ∈ l, lt y x = false) : stableInsert lt x l = x :: l := by
  cases l with
  | nil => rfl
  | cons y ys =>
      have hy : lt y x = false := h y (by simp)
      simp [stableInsert, hy]

theorem stableInsert_append_of_forall_lt {α : Type} {lt : α → α → Bool} {x : α} {A : List α}
    (B : List α) (h : ∀ a ∈ A, lt a x = true) :
    stableInsert lt x (A ++ B) = A ++ stableInsert lt x B := by
  induction A with
  | nil => rfl
  | cons a as ih =>
      have ha : lt a x = true := h a (by simp)
      simp only [List.cons_append, stableInsert, ha, if_true, List.append_eq]
      rw [ih (fun a ha => h a (by simp [ha]))]

namespace Ftpd

theorem requeueChanges_partition (files : List String) :
    requeueChanges files =
      files.filter (fun f => !isBuildChanges f) ++ files.filter (fun f => isBuildChanges f) := by
  induction files with
  | nil => rfl
  | cons f fs ih =>
      have step : requeueChanges (f :: fs) = stableInsert requeueLt f (requeueChanges fs) := rfl
      by_cases hf : isBuildChanges f
      · have hkey : requeueKey f = 1 := by simp [requeueKey, hf]
        have hA : ∀ a ∈ fs.filter (fun f => !isBuildChanges f), requeueLt a f = true := by
          intro a ha
          have : isBuildChanges a = false := by
            have := (List.mem_filter.mp ha).2
            simpa using this
          simp [requeueLt, requeueKey, this, hkey, hf]
        have hB : ∀ b ∈ fs.filter (fun f => isBuildChanges f), requeueLt b f = false := by
          intro b hb
          have : isBuildChanges b = true := by
            simpa using (List.mem_filter.mp hb).2
          simp [requeueLt, requeueKey, this, hkey, hf]
        rw [step, ih, stableInsert_append_of_forall_lt _ hA, stableInsert_of_forall_not hB]
        simp [hf]
      · have hA : ∀ y ∈ fs.filter (fun f => !isBuildChanges f) ++ fs.filter (fun f => isBuildChanges f),
            requeueLt y f = false := by
          intro y _
          simp [requeueLt, requeueKey, hf]
        rw [step, ih, stableInsert_of_forall_not hA]
        simp [hf]

end Ftpd

theorem splitOnChar_ne_nil (sep : Char) (s : List Char) : splitOnChar sep s ≠ [] := by
  cases s with
  | nil => simp [splitOnChar]
  | cons c rest =>
      simp only [splitOnChar]
      cases h : splitOnChar sep rest with
      | nil => simp
      | cons a t => by_cases hc : c = sep <;> simp [hc]

theorem splitOnChar_no_sep {sep : Char} {w : List Char} (h : sep ∉ w) :
    splitOnChar sep w = [w] := by
  induction w with
  | nil => rfl
  | cons c cw ih =>
      have hc : c ≠ sep := fun hh => h (by simp [hh])
      have hcw : sep ∉ cw := fun hh => h (by simp [hh])
      simp only [splitOnChar]
      rw [ih hcw]
      simp [hc]

theorem splitOnChar_append_sep {sep : Char} {w : List Char} (rest : List Char) (h : sep ∉ w) :
    splitOnChar sep (w ++ sep :: rest) = w :: splitOnChar sep rest := by
  induction w with
  | nil =>
      simp only [List.nil_append, splitOnChar]
      cases hr : splitOnChar sep rest with
      | nil => exact absurd hr (splitOnChar_ne_nil sep rest)
      | cons a t => simp
  | cons c cw ih =>
      have hc : c ≠ sep := fun hh => h (by simp [hh])
      have hcw : sep ∉ cw := fun hh => h (by simp [hh])
      simp only [List.cons_append, splitOnChar, List.append_eq]
      rw [ih hcw]
      simp [hc]

theorem joinSep_cons_cons (sep c : Char) (h : List Char) (t : List (List Char)) :
    joinSep sep ((c :: h) :: t) = c :: joinSep sep (h :: t) := by
  cases t <;> rfl

theorem joinSep_splitOnChar (sep : Char) (s : List Char) :
    joinSep sep (splitOnChar sep s) = s := by
  induction s with
  | nil => rfl
  | cons c rest ih =>
      simp only [splitOnChar]
      cases hr : splitOnChar sep rest with
      | nil => exact absurd hr (splitOnChar_ne_nil sep rest)
      | cons h t =>
          rw [hr] at ih
          by_cases hc : c = sep
          · subst hc
            simp only [eq_self_iff_true, if_true]
            have hstep : joinSep c ([] :: h :: t) = c :: joinSep c (h :: t) := rfl
            rw [hstep, ih]
          · simp only [if_neg hc]
            rw [joinSep_cons_cons, ih]

theorem isPrefixOf_append_self (l t : List Char) : l.isPrefixOf (l ++ t) = true := by
  induction l with
  | nil => simp [List.isPrefixOf]
  | cons c cl ih => simp [List.isPrefixOf, ih]

theorem eq_append_drop_of_isPrefixOf :
    ∀ {l s : List Char}, l.isPrefixOf s = true → s = l ++ s.drop l.length := by
  intro l
  induction l with
  | nil => intro s _; simp
  | cons c cl ih =>
      intro s h
      cases s with
      | nil => simp [List.isPrefixOf] at h
      | cons a as =>
          simp only [List.isPrefixOf, Bool.and_eq_true, beq_iff_eq] at h
          obtain ⟨rfl, h2⟩ := h
          simpa using ih h2

end MiniBuildd

namespace MiniBuildd

namespace Dist

theorem isWordRun_no_dash {w : List Char} (h : isWordRun w = true) : '-' ∉ w := by
  intro hm
  have hall : w.all isWordChar = true := by
    simp only [isWordRun, Bool.and_eq_true] at h
    exact h.2
  have hbad : isWordChar '-' = true := List.all_eq_true.mp hall _ hm
  exact absurd hbad (by decide)

theorem all_digit_no_dash {ds : List Char} (h : ds.all Char.isDigit = true) : '-' ∉ ds := by
  intro hm
  have hbad : Char.isDigit '-' = true := List.all_eq_true.mp h _ hm
  exact absurd hbad (by decide)

theorem rollback_part_no_dash {ds : List Char} (h : ds.all Char.isDigit = true) :
    '-' ∉ rollbackLit ++ ds := by
  intro hm
  rcases List.mem_append.mp hm with h1 | h2
  · exact absurd h1 (by decide)
  · exact all_digit_no_dash h h2

theorem distRegexMatches_spec {s : List Char} (h : distRegexMatches s = true) :
    SpecDistMatch s := by
  unfold distRegexMatches at h
  have hjoin := joinSep_splitOnChar '-' s
  cases hsp : splitOnChar '-' s with
  | nil => rw [hsp] at h; simp at h
  | cons a t1 =>
  cases t1 with
  | nil => rw [hsp] at h; simp at h
  | cons b t2 =>
  cases t2 with
  | nil => rw [hsp] at h; simp at h
  | cons c3 t3 =>
  cases t3 with
  | nil =>
      rw [hsp] at h
      simp only [Bool.and_eq_true] at h
      obtain ⟨⟨ha, hb⟩, hc⟩ := h
      rw [hsp] at hjoin
      refine ⟨a, b, c3, ha, hb, hc, Or.inl ?_⟩
      rw [← hjoin]
      rfl
  | cons d4 t4 =>
  cases t4 with
  | nil =>
      rw [hsp] at h
      simp only [Bool.and_eq_true, isRollbackPart] at h
      obtain ⟨⟨⟨ha, hb⟩, hc⟩, ⟨⟨hpref, hne⟩, hdig⟩⟩ := h
      rw [hsp] at hjoin
      have hdeq : d4 = rollbackLit ++ d4.drop 8 := by
        have := eq_append_drop_of_isPrefixOf hpref
        simpa using this
      refine ⟨a, b, c3, ha, hb, hc, Or.inr ⟨d4.drop 8, ?_, hdig, ?_⟩⟩
      · simpa using hne
      · rw [← hdeq, ← hjoin]
        rfl
  | cons e5 t5 => rw [hsp] at h; simp at h

end Dist

end MiniBuildd

/-- Claim C5: for every string of the accepted shape
codename-repoid-suite with an optional rollbackN tail (each of the first
three parts a nonempty word-character run, N a nonempty digit run), the
distribution parser succeeds and yields the parts as codename, repository
and suite, the rollback part and its decimal number when present, and
re-serializing returns exactly the input; every string the parser accepts
is of that shape (equivalently, strings outside the language are
rejected with an error). -/
theorem C5_distribution_parser_roundtrip :
    (∀ c r su : List Char,
        MiniBuildd.Dist.isWordRun c = true →
        MiniBuildd.Dist.isWordRun r = true →
        MiniBuildd.Dist.isWordRun su = true →
          MiniBuildd.Dist.parseDistribution (c ++ ('-' :: (r ++ ('-' :: su)))) =
            some ⟨[c, r, su]⟩ ∧
          MiniBuildd.Dist.Distribution.codename ⟨[c, r, su]⟩ = c ∧
          MiniBuildd.Dist.Distribution.repoId ⟨[c, r, su]⟩ = r ∧
          MiniBuildd.Dist.Distribution.suite ⟨[c, r, su]⟩ = su ∧
          MiniBuildd.Dist.Distribution.rollback ⟨[c, r, su]⟩ = none ∧
          MiniBuildd.Dist.Distribution.get ⟨[c, r, su]⟩ = c ++ ('-' :: (r ++ ('-' :: su)))) ∧
    (∀ c r su ds : List Char,
        MiniBuildd.Dist.isWordRun c = true →
        MiniBuildd.Dist.isWordRun r = true →
        MiniBuildd.Dist.isWordRun su = true →
        ds ≠ [] → ds.all Char.isDigit = true →
          MiniBuildd.Dist.parseDistribution
              (c ++ ('-' :: (r ++ ('-' :: (su ++ ('-' :: (MiniBuildd.Dist.rollbackLit ++ ds))))))) =
            some ⟨[c, r, su, MiniBuildd.Dist.rollbackLit ++ ds]⟩ ∧
          MiniBuildd.Dist.Distribution.codename ⟨[c, r, su, MiniBuildd.Dist.rollbackLit ++ ds]⟩ = c ∧
          MiniBuildd.Dist.Distribution.repoId ⟨[c, r, su, MiniBuildd.Dist.rollbackLit ++ ds]⟩ = r ∧
          MiniBuildd.Dist.Distribution.suite ⟨[c, r, su, MiniBuildd.Dist.rollbackLit ++ ds]⟩ = su ∧
          MiniBuildd.Dist.Distribution.rollback ⟨[c, r, su, MiniBuildd.Dist.rollbackLit ++ ds]⟩ =
            some (MiniBuildd.Dist.rollbackLit ++ ds) ∧
          MiniBuildd.Dist.Distribution.rollbackNo ⟨[c, r, su, MiniBuildd.Dist.rollbackLit ++ ds]⟩ =
            some (MiniBuildd.Dist.digitsToNat ds) ∧
          MiniBuildd.Dist.Distribution.get ⟨[c, r, su, MiniBuildd.Dist.rollbackLit ++ ds]⟩ =
            c ++ ('-' :: (r ++ ('-' :: (su ++ ('-' :: (MiniBuildd.Dist.rollbackLit ++ ds))))))) ∧
    (∀ (s : List Char) (d : MiniBuildd.Dist.Distribution),
        MiniBuildd.Dist.parseDistribution s = some d → MiniBuildd.Dist.SpecDistMatch s) := by
  refine ⟨?_, ?_, ?_⟩
  · intro c r su hc hr hsu
    have hcd := MiniBuildd.Dist.isWordRun_no_dash hc
    have hrd := MiniBuildd.Dist.isWordRun_no_dash hr
    have hsud := MiniBuildd.Dist.isWordRun_no_dash hsu
    have hsplit : MiniBuildd.splitOnChar '-' (c ++ ('-' :: (r ++ ('-' :: su)))) = [c, r, su] := by
      rw [MiniBuildd.splitOnChar_append_sep _ hcd, MiniBuildd.splitOnChar_append_sep _ hrd,
        MiniBuildd.splitOnChar_no_sep hsud]
    have hmatch : MiniBuildd.Dist.distRegexMatches (c ++ ('-' :: (r ++ ('-' :: su)))) = true := by
      unfold MiniBuildd.Dist.distRegexMatches
      rw [hsplit]
      simp [hc, hr, hsu]
    refine ⟨?_, rfl, rfl, rfl, rfl, rfl⟩
    simp [MiniBuildd.Dist.parseDistribution, hmatch, hsplit]
  · intro c r su ds hc hr hsu hne hdig
    have hcd := MiniBuildd.Dist.isWordRun_no_dash hc
    have hrd := MiniBuildd.Dist.isWordRun_no_dash hr
    have hsud := MiniBuildd.Dist.isWordRun_no_dash hsu
    have hrbd := MiniBuildd.Dist.rollback_part_no_dash hdig
    have hsplit : MiniBuildd.splitOnChar '-'
        (c ++ ('-' :: (r ++ ('-' :: (su ++ ('-' :: (MiniBuildd.Dist.rollbackLit ++ ds))))))) =
        [c, r, su, MiniBuildd.Dist.rollbackLit ++ ds] := by
      rw [MiniBuildd.splitOnChar_append_sep _ hcd, MiniBuildd.splitOnChar_append_sep _ hrd,
        MiniBuildd.splitOnChar_append_sep _ hsud, MiniBuildd.splitOnChar_no_sep hrbd]
    have hdrop : (MiniBuildd.Dist.rollbackLit ++ ds).drop 8 = ds := by
      have hlen : MiniBuildd.Dist.rollbackLit.length = 8 := rfl
      rw [← hlen]
      exact List.drop_left _ _
    have hrpart : MiniBuildd.Dist.isRollbackPart (MiniBuildd.Dist.rollbackLit ++ ds) = true := by
      unfold MiniBuildd.Dist.isRollbackPart
      rw [MiniBuildd.isPrefixOf_append_self, hdrop]
      simp [hne, hdig]
    have hmatch : MiniBuildd.Dist.distRegexMatches
        (c ++ ('-' :: (r ++ ('-' :: (su ++ ('-' :: (MiniBuildd.Dist.rollbackLit ++ ds))))))) = true := by
      unfold MiniBuildd.Dist.distRegexMatches
      rw [hsplit]
      simp [hc, hr, hsu, hrpart]
    have hfil : (MiniBuildd.Dist.rollbackLit ++ ds).filter Char.isDigit = ds := by
      rw [List.filter_append]
      have h1 : MiniBuildd.Dist.rollbackLit.filter Char.isDigit = [] := rfl
      have h2 : ds.filter Char.isDigit = ds :=
        List.filter_eq_self.mpr (fun a ha => List.all_eq_true.mp hdig a ha)
      rw [h1, h2]
      simp
    refine ⟨?_, rfl, rfl, rfl, rfl, ?_, rfl⟩
    · simp [MiniBuildd.Dist.parseDistribution, hmatch, hsplit]
    · simp [MiniBuildd.Dist.Distribution.rollbackNo, MiniBuildd.Dist.Distribution.rollback, hfil]
  · intro s d hparse
    have hmatch : MiniBuildd.Dist.distRegexMatches s = true := by
      cases hmb : MiniBuildd.Dist.distRegexMatches s with
      | false => simp [MiniBuildd.Dist.parseDistribution, hmb] at hparse
      | true => rfl
    exact MiniBuildd.Dist.distRegexMatches_spec hmatch

/-- Witness for C5 at the spec's own examples: squeeze-test-stable and
squeeze-test-stable-rollback5 parse to the expected components (and the
rollback number 5), and every accepted string lies in the regex language. -/
theorem C5_distribution_parser_roundtrip_witness :
    MiniBuildd.Dist.parseDistribution ("squeeze".toList ++ ('-' :: ("test".toList ++ ('-' :: "stable".toList)))) =
      some ⟨["squeeze".toList, "test".toList, "stable".toList]⟩ ∧
    MiniBuildd.Dist.Distribution.rollbackNo
        ⟨["squeeze".toList, "test".toList, "stable".toList, MiniBuildd.Dist.rollbackLit ++ "5".toList]⟩ =
      some 5 ∧
    MiniBuildd.Dist.SpecDistMatch ("a".toList ++ ('-' :: ("b".toList ++ ('-' :: "c".toList)))) := by
  have h1 := C5_distribution_parser_roundtrip.1 "squeeze".toList "test".toList "stable".toList
    (by decide) (by decide) (by decide)
  have h2 := C5_distribution_parser_roundtrip.2.1 "squeeze".toList "test".toList "stable".toList
    "5".toList (by decide) (by decide) (by decide) (by decide) (by decide)
  have h3 := C5_distribution_parser_roundtrip.2.2
    ("a".toList ++ ('-' :: ("b".toList ++ ('-' :: "c".toList)))) ⟨["a".toList, "b".toList, "c".toList]⟩
    (by decide)
  refine ⟨h1.1, ?_, h3⟩
  have := h2.2.2.2.2.2.1
  rw [this]
  rfl

/-- Claim C8: at startup every pre-existing changes manifest is re-enqueued,
user uploads ordered before build results via the stable sort key; in the
concrete boot scenario with one user upload and two build results, the
upload is delivered first. -/
theorem C8_requeue_uploads_before_buildresults :
    (∀ files : List String,
        MiniBuildd.Ftpd.requeueChanges files =
          files.filter (fun f => !MiniBuildd.Ftpd.isBuildChanges f) ++
            files.filter (fun f => MiniBuildd.Ftpd.isBuildChanges f)) ∧
    MiniBuildd.Ftpd.requeueChanges
        ["x_1.0_mini-buildd-buildresult_amd64.changes",
         "foo_1.0-1_source.changes",
         "y_1.0_mini-buildd-buildresult_i386.changes"] =
      ["foo_1.0-1_source.changes",
       "x_1.0_mini-buildd-buildresult_amd64.changes",
       "y_1.0_mini-buildd-buildresult_i386.changes"] := by
  constructor
  · exact MiniBuildd.Ftpd.requeueChanges_partition
  · rfl

namespace MiniBuildd

namespace Pkg

theorem alookup_ainsert_self {β : Type} (k : String) (v : β) (l : List (String × β)) :
    alookup k (ainsert k v l) = some v := by
  induction l with
  | nil => simp [ainsert, alookup]
  | cons kv rest ih =>
      obtain ⟨k2, v2⟩ := kv
      by_cases h : k2 = k
      · simp [ainsert, alookup, h]
      · simp [ainsert, alookup, h, ih]

theorem alookup_ainsert_ne {β : Type} {k2 k : String} (v : β) (l : List (String × β))
    (h : k2 ≠ k) : alookup k2 (ainsert k v l) = alookup k2 l := by
  induction l with
  | nil => simp [ainsert, alookup, h.symm]
  | cons kv rest ih =>
      obtain ⟨k3, v3⟩ := kv
      by_cases h3 : k3 = k
      · subst h3
        simp [ainsert, alookup, h.symm]
      · simp only [ainsert, alookup, h3, if_false, if_neg h3]
        by_cases hk : k3 = k2 <;> simp [hk, ih]

theorem alookup_aerase_self {β : Type} (k : String) (l : List (String × β)) :
    alookup k (aerase k l) = none := by
  induction l with
  | nil => rfl
  | cons kv rest ih =>
      obtain ⟨k2, v2⟩ := kv
      by_cases h : k2 = k
      · simpa [aerase, h] using ih
      · simpa [aerase, alookup, h] using ih

theorem alookup_aerase_ne {β : Type} {k2 k : String} (l : List (String × β))
    (h : k2 ≠ k) : alookup k2 (aerase k l) = alookup k2 l := by
  induction l with
  | nil => rfl
  | cons kv rest ih =>
      obtain ⟨k3, v3⟩ := kv
      by_cases h3 : k3 = k
      · subst h3
        have hdrop : aerase k3 ((k3, v3) :: rest) = aerase k3 rest := by
          simp [aerase]
        rw [hdrop, ih]
        simp [alookup, h.symm]
      · have hkeep : aerase k ((k3, v3) :: rest) = (k3, v3) :: aerase k rest := by
          simp [aerase, h3]
        rw [hkeep]
        simp [alookup, ih]

theorem aerase_ainsert {β : Type} (k : String) (v : β) (l : List (String × β)) :
    aerase k (ainsert k v l) = aerase k l := by
  induction l with
  | nil => simp [ainsert, aerase]
  | cons kv rest ih =>
      obtain ⟨k2, v2⟩ := kv
      by_cases h : k2 = k
      · subst h
        simp [ainsert, aerase]
      · have h1 : ainsert k v ((k2, v2) :: rest) = (k2, v2) :: ainsert k v rest := by
          simp [ainsert, h]
        have h2 : aerase k ((k2, v2) :: ainsert k v rest) = (k2, v2) :: aerase k (ainsert k v rest) := by
          simp [aerase, h]
        have h3 : aerase k ((k2, v2) :: rest) = (k2, v2) :: aerase k rest := by
          simp [aerase, h]
        rw [h1, h2, h3, ih]

end Pkg

end MiniBuildd

namespace MiniBuildd

namespace Pkg

theorem addBuildresult_ok_of_verifies (p : Package) (b : Bres) (hv : b.verifies = true) :
    ∃ p1, addBuildresult p b = .ok p1 ∧
      (bresSuccess p b = true →
        p1.success = ainsert b.arch b p.success ∧ p1.failed = p.failed) ∧
      (bresSuccess p b = false →
        p1.failed = ainsert b.arch b p.failed ∧ p1.success = p.success) ∧
      p1.status = p.status ∧ p1.requests = p.requests ∧
      p1.finished =
        (p.finished ||
          decide ((p1.requests.length : Int) - p1.success.length - p1.failed.length ≤ 0)) := by
  by_cases hc : bresSuccess p b = true
  · by_cases hm : ((p.requests.length : Int) - (ainsert b.arch b p.success).length
        - p.failed.length ≤ 0)
    · refine ⟨{ p with success := ainsert b.arch b p.success, finished := true }, ?_, ?_, ?_, rfl, rfl, ?_⟩
      · simp [addBuildresult, hv, hc, hm]
      · intro _; exact ⟨rfl, rfl⟩
      · intro hcf; rw [hc] at hcf; cases hcf
      · simp [hm]
    · refine ⟨{ p with success := ainsert b.arch b p.success }, ?_, ?_, ?_, rfl, rfl, ?_⟩
      · simp [addBuildresult, hv, hc, hm]
      · intro _; exact ⟨rfl, rfl⟩
      · intro hcf; rw [hc] at hcf; cases hcf
      · simp [hm]
  · have hcf : bresSuccess p b = false := by
      cases hcc : bresSuccess p b
      · rfl
      · exact absurd hcc hc
    by_cases hm : ((p.requests.length : Int) - p.success.length
        - (ainsert b.arch b p.failed).length ≤ 0)
    · refine ⟨{ p with failed := ainsert b.arch b p.failed, finished := true }, ?_, ?_, ?_, rfl, rfl, ?_⟩
      · simp [addBuildresult, hv, hcf, hm]
      · intro hct; rw [hcf] at hct; cases hct
      · intro _; exact ⟨rfl, rfl⟩
      · simp [hm]
    · refine ⟨{ p with failed := ainsert b.arch b p.failed }, ?_, ?_, ?_, rfl, rfl, ?_⟩
      · simp [addBuildresult, hv, hcf, hm]
      · intro hct; rw [hcf] at hct; cases hct
      · intro _; exact ⟨rfl, rfl⟩
      · simp [hm]

theorem addBuildresult_error_of_not_verifies (p : Package) (b : Bres)
    (hv : b.verifies = false) : addBuildresult p b = .error "SignatureRejected" := by
  simp [addBuildresult, hv]

theorem addBuildresult_ok_fields {p p1 : Package} {b : Bres}
    (h : addBuildresult p b = .ok p1) :
    p1.status = p.status ∧ p1.requests = p.requests ∧ b.verifies = true := by
  cases hv : b.verifies
  · rw [addBuildresult_error_of_not_verifies p b hv] at h
    cases h
  · obtain ⟨p2, h2, _, _, hst, hreq, _⟩ := addBuildresult_ok_of_verifies p b hv
    rw [h2] at h
    cases h
    exact ⟨hst, hreq, rfl⟩

theorem bresSuccess_iff_claim (p : Package) (b : Bres) :
    bresSuccess p b = true ↔
      (b.sbuildretval = 0 ∧
        (b.sbuildStatus = some "skipped" ∨ LintianAcceptedAmended p b)) := by
  simp [bresSuccess, checkLintian, LintianAcceptedAmended, Bool.and_eq_true, Bool.or_eq_true,
    or_assoc, and_assoc]

end Pkg

end MiniBuildd

namespace MiniBuildd

namespace Pkg

theorem run_bres_error {d : DaemonState} {pid : String} {p : Package} {b : Bres}
    {e : String} (iok ce : Bool) (hp : alookup pid d.packages = some p)
    (he : addBuildresult p b = .error e) :
    run d (.bres pid b iok ce) =
      packageClose ⟨ainsert pid { p with status := .failed, statusDesc := some e } d.packages⟩
        pid ce := by
  simp only [run, hp, he]

theorem run_bres_not_finished {d : DaemonState} {pid : String} {p p1 : Package} {b : Bres}
    (iok ce : Bool) (hp : alookup pid d.packages = some p)
    (hok : addBuildresult p b = .ok p1) (hnf : p1.finished = false) :
    run d (.bres pid b iok ce) = ⟨ainsert pid p1 d.packages⟩ := by
  simp only [run, hp, hok, hnf]
  simp

theorem run_bres_finished {d : DaemonState} {pid : String} {p p1 : Package} {b : Bres}
    (iok ce : Bool) (hp : alookup pid d.packages = some p)
    (hok : addBuildresult p b = .ok p1) (hf : p1.finished = true) :
    run d (.bres pid b iok ce) =
      (if iok then
        packageClose ⟨ainsert pid { p1 with status := .installed } d.packages⟩ pid ce
      else
        packageClose ⟨ainsert pid { p1 with status := .failed } d.packages⟩ pid ce) := by
  simp only [run, hp, hok, hf]
  cases iok <;> simp

theorem run_bres_stray {d : DaemonState} {pid : String} {b : Bres} (iok ce : Bool)
    (hp : alookup pid d.packages = none) : run d (.bres pid b iok ce) = d := by
  simp only [run, hp]

theorem run_upload_ok {d : DaemonState} {pid : String} {cfg : PrecheckOk} (ce : Bool)
    (hp : alookup pid d.packages = none) :
    run d (.upload pid (.ok cfg) ce) = ⟨ainsert pid (mkPackage .building none cfg) d.packages⟩ := by
  simp only [run, hp]

theorem run_upload_error {d : DaemonState} {pid : String} {e : String} (ce : Bool)
    (hp : alookup pid d.packages = none) :
    run d (.upload pid (.error e) ce) =
      packageClose ⟨ainsert pid (mkPackage .rejected (some e) defaultCfg) d.packages⟩ pid ce := by
  simp only [run, hp]

theorem run_upload_present {d : DaemonState} {pid : String} {p : Package}
    {pre : Except String PrecheckOk} (ce : Bool)
    (hp : alookup pid d.packages = some p) : run d (.upload pid pre ce) = d := by
  simp only [run, hp]

end Pkg

end MiniBuildd

/-- Counterexample to claim C1: an in-flight package in BUILDING receiving a
build result that fails signature verification is not left unchanged in the
in-flight map; the exception propagates and the package is closed, so the
map is emptied. -/
theorem C1_counterexample_package_not_retained :
    (MiniBuildd.Pkg.run
        ⟨[("foo_1.0",
            { status := .building, statusDesc := none, finished := false,
              suiteExperimental := false, lintianMode := 2,
              options := ⟨none, []⟩, requests := ["amd64"],
              success := [], failed := [] })]⟩
        (.bres "foo_1.0"
          { arch := "amd64", sbuildretval := 0, sbuildStatus := some "successful",
            sbuildLintian := some "pass", verifies := false }
          true false)).packages = [] := by
  rfl

/-- Claim C1 (amended): a build result failing signature verification makes
add_buildresult raise before recording anything; packager.run catches the
exception, marks the package FAILED and closes it, so the package is
removed from the in-flight map (it does not stay in BUILDING). -/
theorem C1_failed_verification_closes_package
    (d : MiniBuildd.Pkg.DaemonState) (pid : String) (p : MiniBuildd.Pkg.Package)
    (b : MiniBuildd.Pkg.Bres) (installOk closeErr : Bool)
    (hv : b.verifies = false) (hp : MiniBuildd.Pkg.alookup pid d.packages = some p) :
    MiniBuildd.Pkg.addBuildresult p b = .error "SignatureRejected" ∧
    (MiniBuildd.Pkg.run d (.bres pid b installOk closeErr)).packages =
      MiniBuildd.Pkg.aerase pid d.packages := by
  have herr := MiniBuildd.Pkg.addBuildresult_error_of_not_verifies p b hv
  refine ⟨herr, ?_⟩
  rw [MiniBuildd.Pkg.run_bres_error installOk closeErr hp herr]
  exact MiniBuildd.Pkg.aerase_ainsert _ _ _

/-- Witness for the amended C1 at a concrete state. -/
theorem C1_failed_verification_closes_package_witness :
    MiniBuildd.Pkg.addBuildresult
        { status := .building, statusDesc := none, finished := false,
          suiteExperimental := false, lintianMode := 2,
          options := ⟨none, []⟩, requests := ["amd64", "i386"],
          success := [], failed := [] }
        { arch := "i386", sbuildretval := 1, sbuildStatus := some "failed",
          sbuildLintian := none, verifies := false } =
      .error "SignatureRejected" ∧
    (MiniBuildd.Pkg.run
        ⟨[("bar_2.0",
            { status := .building, statusDesc := none, finished := false,
              suiteExperimental := false, lintianMode := 2,
              options := ⟨none, []⟩, requests := ["amd64", "i386"],
              success := [], failed := [] })]⟩
        (.bres "bar_2.0"
          { arch := "i386", sbuildretval := 1, sbuildStatus := some "failed",
            sbuildLintian := none, verifies := false }
          true true)).packages =
      MiniBuildd.Pkg.aerase "bar_2.0"
        [("bar_2.0",
            { status := .building, statusDesc := none, finished := false,
              suiteExperimental := false, lintianMode := 2,
              options := ⟨none, []⟩, requests := ["amd64", "i386"],
              success := [], failed := [] })] :=
  C1_failed_verification_closes_package _ "bar_2.0" _ _ true true rfl rfl

/-- Counterexample to claim C2: a second verified build result for an
architecture that already has a recorded result does not leave the original
recorded result unchanged; it overwrites it (and is not dropped). -/
theorem C2_counterexample_duplicate_overwrites :
    (MiniBuildd.Pkg.run
        ⟨[("foo_1.0",
            { status := .building, statusDesc := none, finished := false,
              suiteExperimental := false, lintianMode := 2,
              options := ⟨none, []⟩, requests := ["amd64", "i386"],
              success := [("amd64",
                { arch := "amd64", sbuildretval := 0, sbuildStatus := some "successful",
                  sbuildLintian := some "pass", verifies := true })],
              failed := [] })]⟩
        (.bres "foo_1.0"
          { arch := "amd64", sbuildretval := 0, sbuildStatus := some "skipped",
            sbuildLintian := none, verifies := true }
          true false)).packages =
      [("foo_1.0",
          { status := .building, statusDesc := none, finished := false,
            suiteExperimental := false, lintianMode := 2,
            options := ⟨none, []⟩, requests := ["amd64", "i386"],
            success := [("amd64",
              { arch := "amd64", sbuildretval := 0, sbuildStatus := some "skipped",
                sbuildLintian := none, verifies := true })],
            failed := [] })] ∧
    ({ arch := "amd64", sbuildretval := 0, sbuildStatus := some "skipped",
       sbuildLintian := none, verifies := true } : MiniBuildd.Pkg.Bres) ≠
      { arch := "amd64", sbuildretval := 0, sbuildStatus := some "successful",
        sbuildLintian := some "pass", verifies := true } := by
  exact ⟨rfl, by decide⟩

/-- Claim C2 (amended): a second verified build result for an architecture
that already has a recorded verdict is processed like any other result:
it is recorded under its architecture, overwriting the entry of the map
matching its own classification (the other map is untouched); later
duplicates are not dropped. -/
theorem C2_duplicate_result_overwrites
    (p : MiniBuildd.Pkg.Package) (b : MiniBuildd.Pkg.Bres) (hv : b.verifies = true) :
    ∃ p1, MiniBuildd.Pkg.addBuildresult p b = .ok p1 ∧
      (MiniBuildd.Pkg.bresSuccess p b = true →
        p1.success = MiniBuildd.Pkg.ainsert b.arch b p.success ∧ p1.failed = p.failed ∧
        MiniBuildd.Pkg.alookup b.arch p1.success = some b) ∧
      (MiniBuildd.Pkg.bresSuccess p b = false →
        p1.failed = MiniBuildd.Pkg.ainsert b.arch b p.failed ∧ p1.success = p.success ∧
        MiniBuildd.Pkg.alookup b.arch p1.failed = some b) := by
  obtain ⟨p1, hok, hs, hf, _, _, _⟩ := MiniBuildd.Pkg.addBuildresult_ok_of_verifies p b hv
  refine ⟨p1, hok, ?_, ?_⟩
  · intro hc
    obtain ⟨h1, h2⟩ := hs hc
    exact ⟨h1, h2, by rw [h1]; exact MiniBuildd.Pkg.alookup_ainsert_self _ _ _⟩
  · intro hc
    obtain ⟨h1, h2⟩ := hf hc
    exact ⟨h1, h2, by rw [h1]; exact MiniBuildd.Pkg.alookup_ainsert_self _ _ _⟩

/-- Witness for the amended C2: the same concrete duplicate as the
counterexample, through the general theorem. -/
theorem C2_duplicate_result_overwrites_witness :
    ∃ p1, MiniBuildd.Pkg.addBuildresult
        { status := .building, statusDesc := none, finished := false,
          suiteExperimental := false, lintianMode := 2,
          options := ⟨none, []⟩, requests := ["amd64", "i386"],
          success := [("amd64",
            { arch := "amd64", sbuildretval := 0, sbuildStatus := some "successful",
              sbuildLintian := some "pass", verifies := true })],
          failed := [] }
        { arch := "amd64", sbuildretval := 0, sbuildStatus := some "skipped",
          sbuildLintian := none, verifies := true } = .ok p1 ∧
      (MiniBuildd.Pkg.bresSuccess
          { status := .building, statusDesc := none, finished := false,
            suiteExperimental := false, lintianMode := 2,
            options := ⟨none, []⟩, requests := ["amd64", "i386"],
            success := [("amd64",
              { arch := "amd64", sbuildretval := 0, sbuildStatus := some "successful",
                sbuildLintian := some "pass", verifies := true })],
            failed := [] }
          { arch := "amd64", sbuildretval := 0, sbuildStatus := some "skipped",
            sbuildLintian := none, verifies := true } = true →
        p1.success = MiniBuildd.Pkg.ainsert "amd64"
            { arch := "amd64", sbuildretval := 0, sbuildStatus := some "skipped",
              sbuildLintian := none, verifies := true }
            [("amd64",
              { arch := "amd64", sbuildretval := 0, sbuildStatus := some "successful",
                sbuildLintian := some "pass", verifies := true })] ∧
        p1.failed = [] ∧
        MiniBuildd.Pkg.alookup "amd64" p1.success =
          some { arch := "amd64", sbuildretval := 0, sbuildStatus := some "skipped",
                 sbuildLintian := none, verifies := true }) ∧
      (MiniBuildd.Pkg.bresSuccess
          { status := .building, statusDesc := none, finished := false,
            suiteExperimental := false, lintianMode := 2,
            options := ⟨none, []⟩, requests := ["amd64", "i386"],
            success := [("amd64",
              { arch := "amd64", sbuildretval := 0, sbuildStatus := some "successful",
                sbuildLintian := some "pass", verifies := true })],
            failed := [] }
          { arch := "amd64", sbuildretval := 0, sbuildStatus := some "skipped",
            sbuildLintian := none, verifies := true } = false →
        p1.failed = MiniBuildd.Pkg.ainsert "amd64"
            { arch := "amd64", sbuildretval := 0, sbuildStatus := some "skipped",
              sbuildLintian := none, verifies := true } [] ∧
        p1.success = [("amd64",
            { arch := "amd64", sbuildretval := 0, sbuildStatus := some "successful",
              sbuildLintian := some "pass", verifies := true })] ∧
        MiniBuildd.Pkg.alookup "amd64" p1.failed =
          some { arch := "amd64", sbuildretval := 0, sbuildStatus := some "skipped",
                 sbuildLintian := none, verifies := true }) :=
  C2_duplicate_result_overwrites _ _ rfl

/-- Counterexample to claim C3: a verified build result with an empty
Architecture string, Sbuildretval 0, a non-skipped status and a failing
lintian verdict, for a package whose upload options carry the
per-architecture variant with the empty architecture key set to true.
Under the claim's acceptance rule (per-architecture variant taking
precedence unconditionally) the result would be recorded under success,
but add_buildresult records it under failed: Options.get skips the
per-architecture variant for a falsy (empty) architecture string. -/
theorem C3_counterexample_empty_arch_variant :
    MiniBuildd.Pkg.addBuildresult
        { status := .building, statusDesc := none, finished := false,
          suiteExperimental := false, lintianMode := 2,
          options := ⟨none, [("", true)]⟩, requests := ["amd64", "i386"],
          success := [], failed := [] }
        { arch := "", sbuildretval := 0, sbuildStatus := some "successful",
          sbuildLintian := some "fail", verifies := true } =
      .ok { status := .building, statusDesc := none, finished := false,
            suiteExperimental := false, lintianMode := 2,
            options := ⟨none, [("", true)]⟩, requests := ["amd64", "i386"],
            success := [],
            failed := [("",
              { arch := "", sbuildretval := 0, sbuildStatus := some "successful",
                sbuildLintian := some "fail", verifies := true })] } ∧
    MiniBuildd.Pkg.LintianAcceptedClaim
        { status := .building, statusDesc := none, finished := false,
          suiteExperimental := false, lintianMode := 2,
          options := ⟨none, [("", true)]⟩, requests := ["amd64", "i386"],
          success := [], failed := [] }
        { arch := "", sbuildretval := 0, sbuildStatus := some "successful",
          sbuildLintian := some "fail", verifies := true } ∧
    ({ arch := "", sbuildretval := 0, sbuildStatus := some "successful",
       sbuildLintian := some "fail", verifies := true } : MiniBuildd.Pkg.Bres).sbuildretval = 0 := by
  refine ⟨rfl, ?_, rfl⟩
  exact Or.inr (Or.inr (Or.inr (by decide)))

/-- Claim C3 (amended): a correlated, verified build result is recorded
under success[arch] if and only if Sbuildretval is 0 and (Sbuild-Status is
"skipped", or the lintian verdict is accepted), where acceptance is:
Sbuild-Lintian is "pass", or the suite is experimental, or the lintian mode
is below fail-on-error, or the ignore-lintian upload option is true - the
per-architecture variant taking precedence for a nonempty architecture
string (for an empty architecture only the plain option is consulted);
otherwise it is recorded under failed[arch]. -/
theorem C3_success_iff_lintian_policy
    (p : MiniBuildd.Pkg.Package) (b : MiniBuildd.Pkg.Bres) (hv : b.verifies = true) :
    ∃ p1, MiniBuildd.Pkg.addBuildresult p b = .ok p1 ∧
      ((b.sbuildretval = 0 ∧
          (b.sbuildStatus = some "skipped" ∨ MiniBuildd.Pkg.LintianAcceptedAmended p b)) →
        p1.success = MiniBuildd.Pkg.ainsert b.arch b p.success ∧ p1.failed = p.failed) ∧
      (¬(b.sbuildretval = 0 ∧
          (b.sbuildStatus = some "skipped" ∨ MiniBuildd.Pkg.LintianAcceptedAmended p b)) →
        p1.failed = MiniBuildd.Pkg.ainsert b.arch b p.failed ∧ p1.success = p.success) := by
  obtain ⟨p1, hok, hs, hf, _, _, _⟩ := MiniBuildd.Pkg.addBuildresult_ok_of_verifies p b hv
  refine ⟨p1, hok, ?_, ?_⟩
  · intro hcond
    exact hs ((MiniBuildd.Pkg.bresSuccess_iff_claim p b).mpr hcond)
  · intro hcond
    have hfalse : MiniBuildd.Pkg.bresSuccess p b = false := by
      cases hc : MiniBuildd.Pkg.bresSuccess p b
      · rfl
      · exact absurd ((MiniBuildd.Pkg.bresSuccess_iff_claim p b).mp hc) hcond
    exact hf hfalse

/-- Witness for the amended C3: a lintian-fail result with the
per-architecture ignore-lintian option set for its (nonempty) architecture
is accepted into success. -/
theorem C3_success_iff_lintian_policy_witness :
    ∃ p1, MiniBuildd.Pkg.addBuildresult
        { status := .building, statusDesc := none, finished := false,
          suiteExperimental := false, lintianMode := 2,
          options := ⟨none, [("amd64", true)]⟩, requests := ["amd64", "i386"],
          success := [], failed := [] }
        { arch := "amd64", sbuildretval := 0, sbuildStatus := some "successful",
          sbuildLintian := some "fail", verifies := true } = .ok p1 ∧
      (({ arch := "amd64", sbuildretval := 0, sbuildStatus := some "successful",
          sbuildLintian := some "fail", verifies := true } : MiniBuildd.Pkg.Bres).sbuildretval = 0 ∧
        (({ arch := "amd64", sbuildretval := 0, sbuildStatus := some "successful",
            sbuildLintian := some "fail", verifies := true } : MiniBuildd.Pkg.Bres).sbuildStatus =
            some "skipped" ∨
          MiniBuildd.Pkg.LintianAcceptedAmended
            { status := .building, statusDesc := none, finished := false,
              suiteExperimental := false, lintianMode := 2,
              options := ⟨none, [("amd64", true)]⟩, requests := ["amd64", "i386"],
              success := [], failed := [] }
            { arch := "amd64", sbuildretval := 0, sbuildStatus := some "successful",
              sbuildLintian := some "fail", verifies := true }) →
        p1.success = MiniBuildd.Pkg.ainsert "amd64"
            { arch := "amd64", sbuildretval := 0, sbuildStatus := some "successful",
              sbuildLintian := some "fail", verifies := true } [] ∧
        p1.failed = []) ∧
      (¬(({ arch := "amd64", sbuildretval := 0, sbuildStatus := some "successful",
            sbuildLintian := some "fail", verifies := true } : MiniBuildd.Pkg.Bres).sbuildretval = 0 ∧
          (({ arch := "amd64", sbuildretval := 0, sbuildStatus := some "successful",
              sbuildLintian := some "fail", verifies := true } : MiniBuildd.Pkg.Bres).sbuildStatus =
              some "skipped" ∨
            MiniBuildd.Pkg.LintianAcceptedAmended
              { status := .building, statusDesc := none, finished := false,
                suiteExperimental := false, lintianMode := 2,
                options := ⟨none, [("amd64", true)]⟩, requests := ["amd64", "i386"],
                success := [], failed := [] }
              { arch := "amd64", sbuildretval := 0, sbuildStatus := some "successful",
                sbuildLintian := some "fail", verifies := true })) →
        p1.failed = MiniBuildd.Pkg.ainsert "amd64"
            { arch := "amd64", sbuildretval := 0, sbuildStatus := some "successful",
              sbuildLintian := some "fail", verifies := true } [] ∧
        p1.success = []) :=
  C3_success_iff_lintian_policy _ _ rfl

namespace MiniBuildd

namespace Pkg

theorem alookup_close_ainsert {d : DaemonState} {pid pid2 : String} {x q : Package}
    {ce : Bool}
    (h : alookup pid2 (packageClose ⟨ainsert pid x d.packages⟩ pid ce).packages = some q) :
    pid2 ≠ pid ∧ alookup pid2 d.packages = some q := by
  by_cases hpk : pid2 = pid
  · subst hpk
    simp only [packageClose] at h
    rw [alookup_aerase_self] at h
    cases h
  · simp only [packageClose] at h
    rw [alookup_aerase_ne _ hpk, alookup_ainsert_ne _ _ hpk] at h
    exact ⟨hpk, h⟩

end Pkg

end MiniBuildd

/-- Claim C9: package_close always removes the package from the in-flight
map, whatever the close-time steps do; consequently processing one ingest
event preserves the invariant that every package in the in-flight map is
non-terminal (CHECKING or BUILDING) - no INSTALLED, FAILED or REJECTED
package is ever left in the map. -/
theorem C9_close_removes_and_inflight_nonterminal :
    (∀ (d : MiniBuildd.Pkg.DaemonState) (pid : String) (ce : Bool),
        MiniBuildd.Pkg.alookup pid (MiniBuildd.Pkg.packageClose d pid ce).packages = none) ∧
    (∀ (d : MiniBuildd.Pkg.DaemonState) (ev : MiniBuildd.Pkg.Event),
        (∀ pid p, MiniBuildd.Pkg.alookup pid d.packages = some p →
            p.status = .checking ∨ p.status = .building) →
        ∀ pid p, MiniBuildd.Pkg.alookup pid (MiniBuildd.Pkg.run d ev).packages = some p →
            p.status = .checking ∨ p.status = .building) := by
  constructor
  · intro d pid ce
    exact MiniBuildd.Pkg.alookup_aerase_self pid d.packages
  · intro d ev hinv
    cases ev with
    | bres pid b iok ce =>
        cases hl : MiniBuildd.Pkg.alookup pid d.packages with
        | none =>
            rw [MiniBuildd.Pkg.run_bres_stray iok ce hl]
            exact hinv
        | some p =>
            cases hab : MiniBuildd.Pkg.addBuildresult p b with
            | error e =>
                rw [MiniBuildd.Pkg.run_bres_error iok ce hl hab]
                intro pid2 p2 h2
                exact hinv pid2 p2 (MiniBuildd.Pkg.alookup_close_ainsert h2).2
            | ok p1 =>
                cases hfin : p1.finished with
                | false =>
                    rw [MiniBuildd.Pkg.run_bres_not_finished iok ce hl hab hfin]
                    intro pid2 p2 h2
                    by_cases hpk : pid2 = pid
                    · subst hpk
                      rw [MiniBuildd.Pkg.alookup_ainsert_self] at h2
                      cases h2
                      have hst := (MiniBuildd.Pkg.addBuildresult_ok_fields hab).1
                      rw [hst]
                      exact hinv pid2 p hl
                    · rw [MiniBuildd.Pkg.alookup_ainsert_ne _ _ hpk] at h2
                      exact hinv pid2 p2 h2
                | true =>
                    rw [MiniBuildd.Pkg.run_bres_finished iok ce hl hab hfin]
                    cases iok
                    · simp only [if_false, Bool.false_eq_true]
                      intro pid2 p2 h2
                      exact hinv pid2 p2 (MiniBuildd.Pkg.alookup_close_ainsert h2).2
                    · simp only [if_true]
                      intro pid2 p2 h2
                      exact hinv pid2 p2 (MiniBuildd.Pkg.alookup_close_ainsert h2).2
    | upload pid pre ce =>
        cases hl : MiniBuildd.Pkg.alookup pid d.packages with
        | some p =>
            rw [MiniBuildd.Pkg.run_upload_present ce hl]
            exact hinv
        | none =>
            cases pre with
            | ok cfg =>
                rw [MiniBuildd.Pkg.run_upload_ok ce hl]
                intro pid2 p2 h2
                by_cases hpk : pid2 = pid
                · subst hpk
                  rw [MiniBuildd.Pkg.alookup_ainsert_self] at h2
                  cases h2
                  right
                  rfl
                · rw [MiniBuildd.Pkg.alookup_ainsert_ne _ _ hpk] at h2
                  exact hinv pid2 p2 h2
            | error e =>
                rw [MiniBuildd.Pkg.run_upload_error ce hl]
                intro pid2 p2 h2
                exact hinv pid2 p2 (MiniBuildd.Pkg.alookup_close_ainsert h2).2

/-- Witness for C9: closing removes a concrete package, and a fresh upload
into an empty in-flight map leaves only non-terminal packages. -/
theorem C9_close_removes_and_inflight_nonterminal_witness :
    MiniBuildd.Pkg.alookup "a_1"
        (MiniBuildd.Pkg.packageClose
          ⟨[("a_1", MiniBuildd.Pkg.mkPackage .building none MiniBuildd.Pkg.defaultCfg)]⟩
          "a_1" true).packages = none ∧
    (∀ pid p,
        MiniBuildd.Pkg.alookup pid
            (MiniBuildd.Pkg.run ⟨[]⟩
              (.upload "a_1" (.ok MiniBuildd.Pkg.defaultCfg) false)).packages = some p →
          p.status = .checking ∨ p.status = .building) := by
  refine ⟨C9_close_removes_and_inflight_nonterminal.1 _ "a_1" true, ?_⟩
  refine C9_close_removes_and_inflight_nonterminal.2 ⟨[]⟩ _ ?_
  intro pid p h
  simp [MiniBuildd.Pkg.alookup] at h

/-- Claim C10: a verified build result is recorded under its Architecture
field whether or not that architecture was requested, and the finished
mark is set exactly when the number of recorded verdicts reaches the
number of requests. -/
theorem C10_unrequested_arch_counts_toward_completion
    (p p1 : MiniBuildd.Pkg.Package) (b : MiniBuildd.Pkg.Bres)
    (h : MiniBuildd.Pkg.addBuildresult p b = .ok p1) :
    (MiniBuildd.Pkg.alookup b.arch p1.success = some b ∨
      MiniBuildd.Pkg.alookup b.arch p1.failed = some b) ∧
    p1.requests = p.requests ∧
    p1.finished =
      (p.finished || decide (p1.requests.length ≤ p1.success.length + p1.failed.length)) := by
  have hv : b.verifies = true := (MiniBuildd.Pkg.addBuildresult_ok_fields h).2.2
  obtain ⟨p2, hok2, hs, hf, _, hreq, hfin⟩ :=
    MiniBuildd.Pkg.addBuildresult_ok_of_verifies p b hv
  rw [h] at hok2
  cases hok2
  refine ⟨?_, hreq, ?_⟩
  · cases hc : MiniBuildd.Pkg.bresSuccess p b
    · right
      rw [(hf hc).1]
      exact MiniBuildd.Pkg.alookup_ainsert_self _ _ _
    · left
      rw [(hs hc).1]
      exact MiniBuildd.Pkg.alookup_ainsert_self _ _ _
  · rw [hfin]
    have hd : decide ((p1.requests.length : Int) - p1.success.length - p1.failed.length ≤ 0) =
        decide (p1.requests.length ≤ p1.success.length + p1.failed.length) := by
      rw [decide_eq_decide]
      omega
    rw [hd]

/-- Witness for C10: a failing verified result for the unrequested
architecture i386 on a package that requested only amd64 is recorded and
triggers completion while amd64 is still undecided. -/
theorem C10_unrequested_arch_counts_toward_completion_witness :
    (MiniBuildd.Pkg.alookup "i386"
        ({ status := .building, statusDesc := none, finished := true,
           suiteExperimental := false, lintianMode := 2,
           options := ⟨none, []⟩, requests := ["amd64"],
           success := [],
           failed := [("i386",
             { arch := "i386", sbuildretval := 1, sbuildStatus := some "failed",
               sbuildLintian := none, verifies := true })] } : MiniBuildd.Pkg.Package).success =
        some { arch := "i386", sbuildretval := 1, sbuildStatus := some "failed",
               sbuildLintian := none, verifies := true } ∨
      MiniBuildd.Pkg.alookup "i386"
        ({ status := .building, statusDesc := none, finished := true,
           suiteExperimental := false, lintianMode := 2,
           options := ⟨none, []⟩, requests := ["amd64"],
           success := [],
           failed := [("i386",
             { arch := "i386", sbuildretval := 1, sbuildStatus := some "failed",
               sbuildLintian := none, verifies := true })] } : MiniBuildd.Pkg.Package).failed =
        some { arch := "i386", sbuildretval := 1, sbuildStatus := some "failed",
               sbuildLintian := none, verifies := true }) ∧
    (["amd64"] : List String) = ["amd64"] ∧
    (true : Bool) = (false || decide ((1 : Nat) ≤ 0 + 1)) := by
  have hmain := C10_unrequested_arch_counts_toward_completion
    { status := .building, statusDesc := none, finished := false,
      suiteExperimental := false, lintianMode := 2,
      options := ⟨none, []⟩, requests := ["amd64"],
      success := [], failed := [] }
    { status := .building, statusDesc := none, finished := true,
      suiteExperimental := false, lintianMode := 2,
      options := ⟨none, []⟩, requests := ["amd64"],
      success := [],
      failed := [("i386",
        { arch := "i386", sbuildretval := 1, sbuildStatus := some "failed",
          sbuildLintian := none, verifies := true })] }
    { arch := "i386", sbuildretval := 1, sbuildStatus := some "failed",
      sbuildLintian := none, verifies := true }
    rfl
  exact hmain

namespace MiniBuildd

theorem mem_stableInsert {α : Type} (lt : α → α → Bool) (x z : α) (l : List α) :
    z ∈ stableInsert lt x l ↔ z = x ∨ z ∈ l := by
  induction l with
  | nil => simp [stableInsert]
  | cons y ys ih =>
      by_cases hlt : lt y x
      · simp [stableInsert, hlt, ih]
        tauto
      · simp [stableInsert, hlt]

theorem stableInsert_perm {α : Type} (lt : α → α → Bool) (x : α) (l : List α) :
    List.Perm (stableInsert lt x l) (x :: l) := by
  induction l with
  | nil => exact List.Perm.refl _
  | cons y ys ih =>
      by_cases hlt : lt y x
      · simp only [stableInsert, hlt, if_true]
        exact (ih.cons y).trans (List.Perm.swap x y ys)
      · simp only [stableInsert, hlt]
        simp

theorem stableSort_perm {α : Type} (lt : α → α → Bool) (l : List α) :
    List.Perm (stableSort lt l) l := by
  induction l with
  | nil => exact List.Perm.refl _
  | cons x xs ih =>
      have hstep : stableSort lt (x :: xs) = stableInsert lt x (stableSort lt xs) := rfl
      rw [hstep]
      exact (stableInsert_perm lt x (stableSort lt xs)).trans (ih.cons x)

namespace Dispatch

theorem loadLt_iff (a b : Int × RemoteStatus) : loadLt a b = true ↔ a.1 < b.1 := by
  simp [loadLt]

theorem pairwise_stableInsert_load (x : Int × RemoteStatus) (l : List (Int × RemoteStatus))
    (h : l.Pairwise (fun a b => a.1 ≤ b.1)) :
    (stableInsert loadLt x l).Pairwise (fun a b => a.1 ≤ b.1) := by
  induction l with
  | nil => simp [stableInsert]
  | cons y ys ih =>
      rw [List.pairwise_cons] at h
      obtain ⟨hy, hys⟩ := h
      by_cases hlt : loadLt y x
      · have hyx : y.1 < x.1 := (loadLt_iff y x).mp hlt
        simp only [stableInsert, hlt, if_true]
        rw [List.pairwise_cons]
        refine ⟨?_, ih hys⟩
        intro z hz
        rcases (mem_stableInsert loadLt x z ys).mp hz with rfl | hz2
        · exact le_of_lt hyx
        · exact hy z hz2
      · have hxy : x.1 ≤ y.1 := le_of_not_lt (fun hc => hlt ((loadLt_iff y x).mpr hc))
        have hltf : loadLt y x = false := by
          cases hb : loadLt y x
          · rfl
          · exact absurd hb hlt
        have hstep : stableInsert loadLt x (y :: ys) = x :: y :: ys := by
          simp [stableInsert, hltf]
        rw [hstep]
        rw [List.pairwise_cons]
        refine ⟨?_, List.pairwise_cons.mpr ⟨hy, hys⟩⟩
        intro z hz
        rcases List.mem_cons.mp hz with rfl | hz2
        · exact hxy
        · exact le_trans hxy (hy z hz2)

theorem sortByLoad_sorted (m : List (Int × RemoteStatus)) :
    (sortByLoad m).Pairwise (fun a b => a.1 ≤ b.1) := by
  induction m with
  | nil => simp [sortByLoad, stableSort]
  | cons x xs ih =>
      have hstep : sortByLoad (x :: xs) = stableInsert loadLt x (sortByLoad xs) := rfl
      rw [hstep]
      exact pairwise_stableInsert_load x _ ih

theorem attemptUploads_spec (l : List (Int × RemoteStatus)) :
    attemptUploads l =
      ((l.takeWhile (fun c => !c.2.acceptsUpload)).map Prod.snd ++
        ((l.dropWhile (fun c => !c.2.acceptsUpload)).take 1).map Prod.snd,
       ((l.dropWhile (fun c => !c.2.acceptsUpload)).head?).map Prod.snd) := by
  induction l with
  | nil => rfl
  | cons c rest ih =>
      obtain ⟨k, st⟩ := c
      by_cases ha : st.acceptsUpload
      · simp [attemptUploads, ha, List.takeWhile_cons, List.dropWhile_cons]
      · simp [attemptUploads, ha, List.takeWhile_cons, List.dropWhile_cons, ih]

theorem qinsert_append {k : Int} {m : List (Int × RemoteStatus)} (v : RemoteStatus)
    (h : k ∉ m.map Prod.fst) : qinsert k v m = m ++ [(k, v)] := by
  induction m with
  | nil => rfl
  | cons kv rest ih =>
      obtain ⟨k2, v2⟩ := kv
      have hk2 : ¬(k2 = k) := by
        intro hh
        exact h (by simp [hh])
      have hrest : k ∉ rest.map Prod.fst := by
        intro hh
        exact h (by simp [hh])
      simp [qinsert, hk2, ih hrest]

theorem foldl_addRemote_append (codename arch : String) :
    ∀ (rs : List (Option RemoteStatus)) (m : List (Int × RemoteStatus)),
      (m.map Prod.fst ++
        ((rs.reduceOption.filter (eligible codename arch)).map RemoteStatus.load)).Nodup →
      ((rs.foldl
          (fun m r =>
            match r with
            | some st => addRemote codename arch m st
            | none => m) m).map Prod.snd =
          m.map Prod.snd ++ rs.reduceOption.filter (eligible codename arch) ∧
        (rs.foldl
          (fun m r =>
            match r with
            | some st => addRemote codename arch m st
            | none => m) m).map Prod.fst =
          m.map Prod.fst ++
            ((rs.reduceOption.filter (eligible codename arch)).map RemoteStatus.load)) := by
  intro rs
  induction rs with
  | nil =>
      intro m _
      simp [List.reduceOption]
  | cons r rest ih =>
      intro m hnd
      cases r with
      | none =>
          have hred : (none :: rest : List (Option RemoteStatus)).reduceOption =
              rest.reduceOption := by simp [List.reduceOption]
          rw [hred] at hnd
          have := ih m hnd
          simpa [hred] using this
      | some st =>
          have hred : (some st :: rest : List (Option RemoteStatus)).reduceOption =
              st :: rest.reduceOption := by simp [List.reduceOption]
          rw [hred] at hnd
          cases he : eligible codename arch st with
          | false =>
              have hfl : (st :: rest.reduceOption).filter (eligible codename arch) =
                  rest.reduceOption.filter (eligible codename arch) := by
                simp [List.filter_cons, he]
              rw [hfl] at hnd
              have hstep : addRemote codename arch m st = m := by
                simp only [addRemote, eligible] at he ⊢
                rw [he]
                simp
              have := ih m hnd
              simp only [List.foldl_cons, hstep, hred, hfl]
              exact this
          | true =>
              have hfl : (st :: rest.reduceOption).filter (eligible codename arch) =
                  st :: rest.reduceOption.filter (eligible codename arch) := by
                simp [List.filter_cons, he]
              rw [hfl] at hnd
              have hnotin : st.load ∉ m.map Prod.fst := by
                rw [List.nodup_append] at hnd
                intro hin
                exact hnd.2.2 hin (by simp)
              have hstep : addRemote codename arch m st = m ++ [(st.load, st)] := by
                simp only [addRemote, eligible] at he ⊢
                rw [he]
                simp [qinsert_append st hnotin]
              have hnd2 : ((m ++ [(st.load, st)]).map Prod.fst ++
                  ((rest.reduceOption.filter (eligible codename arch)).map
                    RemoteStatus.load)).Nodup := by
                simpa using hnd
              have := ih (m ++ [(st.load, st)]) hnd2
              simp only [List.foldl_cons, hstep, hred, hfl]
              refine ⟨?_, ?_⟩
              · rw [this.1]
                simp
              · rw [this.2]
                simp

end Dispatch

end MiniBuildd

/-- Counterexample to claim C4: two eligible candidates (self and one
remote, both running with the requested chroot) that report the same load:
the candidate dict is keyed by load, so the remote displaces self and the
candidate set is not exactly the set of eligible candidates. -/
theorem C4_counterexample_load_collision :
    MiniBuildd.Dispatch.eligible "buster" "amd64"
        { running := true, load := 0, chroots := [("buster", ["amd64"])],
          url := "http://self:8066", acceptsUpload := true } = true ∧
    MiniBuildd.Dispatch.eligible "buster" "amd64"
        { running := true, load := 0, chroots := [("buster", ["amd64"])],
          url := "http://r1:8066", acceptsUpload := true } = true ∧
    ({ running := true, load := 0, chroots := [("buster", ["amd64"])],
       url := "http://self:8066", acceptsUpload := true } : MiniBuildd.Dispatch.RemoteStatus) ≠
      { running := true, load := 0, chroots := [("buster", ["amd64"])],
        url := "http://r1:8066", acceptsUpload := true } ∧
    (MiniBuildd.Dispatch.buildRemotes "buster" "amd64"
        { running := true, load := 0, chroots := [("buster", ["amd64"])],
          url := "http://self:8066", acceptsUpload := true }
        [some { running := true, load := 0, chroots := [("buster", ["amd64"])],
                url := "http://r1:8066", acceptsUpload := true }]).map Prod.snd =
      [{ running := true, load := 0, chroots := [("buster", ["amd64"])],
         url := "http://r1:8066", acceptsUpload := true }] := by
  refine ⟨by decide, by decide, by decide, by decide⟩

/-- Claim C4 (amended): the candidate dict retains exactly the candidates
(self as pseudo remote first, then each remote whose status refresh
succeeded) that are running and offer the requested (codename, arch) -
exactly, provided the eligible candidates report pairwise distinct loads
(sharing a load, the last-checked candidate displaces the earlier one);
the FTP upload is attempted on the candidates in ascending order of load
until one accepts, whose HTTP url is recorded; if none accepts (or there
is no candidate) the dispatch raises. -/
theorem C4_dispatch_candidates_and_order (codename arch : String)
    (selfSt : MiniBuildd.Dispatch.RemoteStatus)
    (remotes : List (Option MiniBuildd.Dispatch.RemoteStatus))
    (hdist : (((MiniBuildd.Dispatch.checkedStatuses selfSt remotes).filter
        (MiniBuildd.Dispatch.eligible codename arch)).map
          MiniBuildd.Dispatch.RemoteStatus.load).Nodup) :
    (MiniBuildd.Dispatch.buildRemotes codename arch selfSt remotes).map Prod.snd =
      (MiniBuildd.Dispatch.checkedStatuses selfSt remotes).filter
        (MiniBuildd.Dispatch.eligible codename arch) ∧
    (MiniBuildd.Dispatch.sortByLoad
        (MiniBuildd.Dispatch.buildRemotes codename arch selfSt remotes)).Pairwise
      (fun a b => a.1 ≤ b.1) ∧
    List.Perm
      (MiniBuildd.Dispatch.sortByLoad
        (MiniBuildd.Dispatch.buildRemotes codename arch selfSt remotes))
      (MiniBuildd.Dispatch.buildRemotes codename arch selfSt remotes) ∧
    MiniBuildd.Dispatch.uploadBuildrequest codename arch selfSt remotes =
      (if (MiniBuildd.Dispatch.buildRemotes codename arch selfSt remotes).isEmpty then
        ([], .error "No builder found")
      else
        (((MiniBuildd.Dispatch.sortByLoad
              (MiniBuildd.Dispatch.buildRemotes codename arch selfSt remotes)).takeWhile
            (fun c => !c.2.acceptsUpload)).map Prod.snd ++
          (((MiniBuildd.Dispatch.sortByLoad
              (MiniBuildd.Dispatch.buildRemotes codename arch selfSt remotes)).dropWhile
            (fun c => !c.2.acceptsUpload)).take 1).map Prod.snd,
         match ((MiniBuildd.Dispatch.sortByLoad
              (MiniBuildd.Dispatch.buildRemotes codename arch selfSt remotes)).dropWhile
            (fun c => !c.2.acceptsUpload)).head? with
         | some c => .ok c.2.url
         | none => .error "Buildrequest upload failed")) := by
  refine ⟨?_, MiniBuildd.Dispatch.sortByLoad_sorted _, MiniBuildd.stableSort_perm _ _, ?_⟩
  · cases he : MiniBuildd.Dispatch.eligible codename arch selfSt with
    | true =>
        have hinit : MiniBuildd.Dispatch.addRemote codename arch [] selfSt =
            [(selfSt.load, selfSt)] := by
          simp only [MiniBuildd.Dispatch.addRemote, MiniBuildd.Dispatch.eligible] at he ⊢
          rw [he]
          rfl
        have hfl : (MiniBuildd.Dispatch.checkedStatuses selfSt remotes).filter
            (MiniBuildd.Dispatch.eligible codename arch) =
            selfSt :: remotes.reduceOption.filter (MiniBuildd.Dispatch.eligible codename arch) := by
          simp [MiniBuildd.Dispatch.checkedStatuses, List.filter_cons, he]
        rw [hfl] at hdist ⊢
        have hnd : (([(selfSt.load, selfSt)].map Prod.fst) ++
            ((remotes.reduceOption.filter (MiniBuildd.Dispatch.eligible codename arch)).map
              MiniBuildd.Dispatch.RemoteStatus.load)).Nodup := by
          simpa using hdist
        have hmain := (MiniBuildd.Dispatch.foldl_addRemote_append codename arch remotes
          [(selfSt.load, selfSt)] hnd).1
        simp only [MiniBuildd.Dispatch.buildRemotes, hinit]
        rw [hmain]
        rfl
    | false =>
        have hinit : MiniBuildd.Dispatch.addRemote codename arch [] selfSt = [] := by
          simp only [MiniBuildd.Dispatch.addRemote, MiniBuildd.Dispatch.eligible] at he ⊢
          rw [he]
          rfl
        have hfl : (MiniBuildd.Dispatch.checkedStatuses selfSt remotes).filter
            (MiniBuildd.Dispatch.eligible codename arch) =
            remotes.reduceOption.filter (MiniBuildd.Dispatch.eligible codename arch) := by
          simp [MiniBuildd.Dispatch.checkedStatuses, List.filter_cons, he]
        rw [hfl] at hdist ⊢
        have hnd : ((([] : List (Int × MiniBuildd.Dispatch.RemoteStatus)).map Prod.fst) ++
            ((remotes.reduceOption.filter (MiniBuildd.Dispatch.eligible codename arch)).map
              MiniBuildd.Dispatch.RemoteStatus.load)).Nodup := by
          simpa using hdist
        have hmain := (MiniBuildd.Dispatch.foldl_addRemote_append codename arch remotes [] hnd).1
        simp only [MiniBuildd.Dispatch.buildRemotes, hinit]
        rw [hmain]
        rfl
  · by_cases hempty : (MiniBuildd.Dispatch.buildRemotes codename arch selfSt remotes).isEmpty
    · simp [MiniBuildd.Dispatch.uploadBuildrequest, hempty]
    · simp only [MiniBuildd.Dispatch.uploadBuildrequest, hempty, if_false,
        Bool.false_eq_true]
      rw [MiniBuildd.Dispatch.attemptUploads_spec]
      cases hh : ((MiniBuildd.Dispatch.sortByLoad
          (MiniBuildd.Dispatch.buildRemotes codename arch selfSt remotes)).dropWhile
        (fun c => !c.2.acceptsUpload)).head? with
      | none => simp [hh]
      | some c => simp [hh]

/-- Witness for the amended C4 at the spec's dispatch scenario: three
eligible candidates with loads 0.1, 0.5 and 0.9 (in tenths: 1, 5, 9) of
which only the second accepts; upload is attempted on the first two
candidates only and the second candidate's HTTP url is recorded. -/
theorem C4_dispatch_candidates_and_order_witness :
    (((MiniBuildd.Dispatch.checkedStatuses
          { running := true, load := 1, chroots := [("buster", ["amd64"])],
            url := "http://self:8066", acceptsUpload := false }
          [some { running := true, load := 5, chroots := [("buster", ["amd64"])],
                  url := "http://r2:8066", acceptsUpload := true },
           some { running := true, load := 9, chroots := [("buster", ["amd64"])],
                  url := "http://r3:8066", acceptsUpload := false }]).filter
        (MiniBuildd.Dispatch.eligible "buster" "amd64")).map
          MiniBuildd.Dispatch.RemoteStatus.load).Nodup ∧
      (MiniBuildd.Dispatch.buildRemotes "buster" "amd64"
          { running := true, load := 1, chroots := [("buster", ["amd64"])],
            url := "http://self:8066", acceptsUpload := false }
          [some { running := true, load := 5, chroots := [("buster", ["amd64"])],
                  url := "http://r2:8066", acceptsUpload := true },
           some { running := true, load := 9, chroots := [("buster", ["amd64"])],
                  url := "http://r3:8066", acceptsUpload := false }]).map Prod.snd =
        (MiniBuildd.Dispatch.checkedStatuses
          { running := true, load := 1, chroots := [("buster", ["amd64"])],
            url := "http://self:8066", acceptsUpload := false }
          [some { running := true, load := 5, chroots := [("buster", ["amd64"])],
                  url := "http://r2:8066", acceptsUpload := true },
           some { running := true, load := 9, chroots := [("buster", ["amd64"])],
                  url := "http://r3:8066", acceptsUpload := false }]).filter
          (MiniBuildd.Dispatch.eligible "buster" "amd64") ∧
      MiniBuildd.Dispatch.uploadBuildrequest "buster" "amd64"
          { running := true, load := 1, chroots := [("buster", ["amd64"])],
            url := "http://self:8066", acceptsUpload := false }
          [some { running := true, load := 5, chroots := [("buster", ["amd64"])],
                  url := "http://r2:8066", acceptsUpload := true },
           some { running := true, load := 9, chroots := [("buster", ["amd64"])],
                  url := "http://r3:8066", acceptsUpload := false }] =
        ([{ running := true, load := 1, chroots := [("buster", ["amd64"])],
            url := "http://self:8066", acceptsUpload := false },
          { running := true, load := 5, chroots := [("buster", ["amd64"])],
            url := "http://r2:8066", acceptsUpload := true }],
         .ok "http://r2:8066") := by
  have hdist : (((MiniBuildd.Dispatch.checkedStatuses
        { running := true, load := 1, chroots := [("buster", ["amd64"])],
          url := "http://self:8066", acceptsUpload := false }
        [some { running := true, load := 5, chroots := [("buster", ["amd64"])],
                url := "http://r2:8066", acceptsUpload := true },
         some { running := true, load := 9, chroots := [("buster", ["amd64"])],
                url := "http://r3:8066", acceptsUpload := false }]).filter
      (MiniBuildd.Dispatch.eligible "buster" "amd64")).map
        MiniBuildd.Dispatch.RemoteStatus.load).Nodup := by decide
  have hmain := C4_dispatch_candidates_and_order "buster" "amd64"
    { running := true, load := 1, chroots := [("buster", ["amd64"])],
      url := "http://self:8066", acceptsUpload := false }
    [some { running := true, load := 5, chroots := [("buster", ["amd64"])],
            url := "http://r2:8066", acceptsUpload := true },
     some { running := true, load := 9, chroots := [("buster", ["amd64"])],
            url := "http://r3:8066", acceptsUpload := false }] hdist
  exact ⟨hdist, hmain.1, by rfl⟩

namespace MiniBuildd

theorem isPrefixOf_iff_append (l s : List Char) :
    l.isPrefixOf s = true ↔ ∃ t, s = l ++ t := by
  constructor
  · intro h
    exact ⟨s.drop l.length, eq_append_drop_of_isPrefixOf h⟩
  · rintro ⟨t, rfl⟩
    exact isPrefixOf_append_self l t

namespace Changes

theorem occurs0_nil {lit : List Char} (h : lit ≠ []) : ¬ Occurs0 lit [] := by
  rintro ⟨pre, post, heq, -, -⟩
  have h1 := List.append_eq_nil.mp heq.symm
  have h2 := List.append_eq_nil.mp h1.1
  exact h h2.2

theorem litScan_iff {lit : List Char} (hlit : lit ≠ []) (s : List Char) :
    litScan lit s = true ↔ Occurs0 lit s := by
  induction s with
  | nil =>
      constructor
      · intro h
        simp [litScan] at h
      · intro h
        exact absurd h (occurs0_nil hlit)
  | cons c rest ih =>
      constructor
      · intro h
        simp only [litScan, Bool.or_eq_true, Bool.and_eq_true] at h
        rcases h with ⟨hpre, htail⟩ | ⟨hc, hscan⟩
        · refine ⟨[], (c :: rest).drop lit.length, ?_, by simp, htail⟩
          simpa using eq_append_drop_of_isPrefixOf hpre
        · obtain ⟨pre, post, heq, hnl, ht⟩ := ih.mp hscan
          refine ⟨c :: pre, post, by rw [heq]; rfl, ?_, ht⟩
          intro x hx
          rcases List.mem_cons.mp hx with rfl | hx2
          · simpa using hc
          · exact hnl x hx2
      · rintro ⟨pre, post, heq, hnl, ht⟩
        cases pre with
        | nil =>
            simp only [List.nil_append] at heq
            simp only [litScan, Bool.or_eq_true, Bool.and_eq_true]
            left
            constructor
            · rw [heq]
              exact isPrefixOf_append_self lit post
            · rw [heq, List.drop_left]
              exact ht
        | cons p ps =>
            simp only [List.cons_append] at heq
            cases heq
            simp only [litScan, Bool.or_eq_true, Bool.and_eq_true]
            right
            constructor
            · simpa using hnl c (by simp)
            · exact ih.mpr ⟨ps, post, rfl, fun x hx => hnl x (by simp [hx]), ht⟩

theorem occurs1_to_occurs0 {lit s : List Char} (h : Occurs1 lit s) : Occurs0 lit s := by
  obtain ⟨pre, post, heq, -, hnl, ht⟩ := h
  exact ⟨pre, post, heq, hnl, ht⟩

theorem changesMatch_iff {lit : List Char} (hlit : lit ≠ []) (s : List Char) :
    changesMatch lit s = true ↔ Occurs1 lit s := by
  cases s with
  | nil =>
      constructor
      · intro h
        simp [changesMatch] at h
      · rintro ⟨pre, post, heq, hne, -, -⟩
        cases pre with
        | nil => exact absurd rfl hne
        | cons p ps => simp at heq
  | cons c rest =>
      constructor
      · intro h
        simp only [changesMatch, Bool.and_eq_true] at h
        obtain ⟨hc, hscan⟩ := h
        obtain ⟨pre, post, heq, hnl, ht⟩ := (litScan_iff hlit rest).mp hscan
        refine ⟨c :: pre, post, by rw [heq]; rfl, by simp, ?_, ht⟩
        intro x hx
        rcases List.mem_cons.mp hx with rfl | hx2
        · simpa using hc
        · exact hnl x hx2
      · rintro ⟨pre, post, heq, hne, hnl, ht⟩
        cases pre with
        | nil => exact absurd rfl hne
        | cons p ps =>
            simp only [List.cons_append] at heq
            cases heq
            simp only [changesMatch, Bool.and_eq_true]
            refine ⟨by simpa using hnl c (by simp), ?_⟩
            exact (litScan_iff hlit _).mpr ⟨ps, post, rfl, fun x hx => hnl x (by simp [hx]), ht⟩

end Changes

end MiniBuildd

namespace MiniBuildd

namespace Changes

theorem occurs0_cons_of_ne {lr : List Char} {a : Char} (ha : a ≠ '_') (t : List Char) :
    Occurs0 ('_' :: lr) (a :: t) ↔ (a ≠ '\n' ∧ Occurs0 ('_' :: lr) t) := by
  constructor
  · rintro ⟨pre, post, heq, hnl, ht⟩
    cases pre with
    | nil =>
        simp only [List.nil_append, List.cons_append] at heq
        exact absurd (List.head_eq_of_cons_eq heq) ha
    | cons p ps =>
        simp only [List.cons_append] at heq
        cases heq
        exact ⟨hnl a (by simp), ⟨ps, post, rfl, fun x hx => hnl x (by simp [hx]), ht⟩⟩
  · rintro ⟨hn, pre, post, heq, hnl, ht⟩
    refine ⟨a :: pre, post, by rw [heq]; rfl, ?_, ht⟩
    intro x hx
    rcases List.mem_cons.mp hx with rfl | hx2
    · exact hn
    · exact hnl x hx2

theorem occurs0_skip_clean {lr : List Char} {u : List Char} (hu : '_' ∉ u) (w : List Char) :
    Occurs0 ('_' :: lr) (u ++ w) ↔ ((∀ c ∈ u, c ≠ '\n') ∧ Occurs0 ('_' :: lr) w) := by
  induction u with
  | nil => simp
  | cons a u2 ih =>
      have ha : a ≠ '_' := fun hh => hu (by simp [hh])
      have hu2 : '_' ∉ u2 := fun hh => hu (by simp [hh])
      rw [List.cons_append, occurs0_cons_of_ne ha, ih hu2]
      constructor
      · rintro ⟨h1, h2, h3⟩
        refine ⟨?_, h3⟩
        intro x hx
        rcases List.mem_cons.mp hx with rfl | hx2
        · exact h1
        · exact h2 x hx2
      · rintro ⟨h1, h3⟩
        exact ⟨h1 a (by simp), fun x hx => h1 x (by simp [hx]), h3⟩

theorem occurs0_underscore_cons (lr v : List Char) :
    Occurs0 ('_' :: lr) ('_' :: v) ↔
      ((lr.isPrefixOf v = true ∧ tailMatch (v.drop lr.length) = true) ∨
        Occurs0 ('_' :: lr) v) := by
  constructor
  · rintro ⟨pre, post, heq, hnl, ht⟩
    cases pre with
    | nil =>
        simp only [List.nil_append, List.cons_append] at heq
        have hv : v = lr ++ post := List.tail_eq_of_cons_eq heq
        left
        constructor
        · rw [hv]
          exact isPrefixOf_append_self lr post
        · rw [hv, List.drop_left]
          exact ht
    | cons p ps =>
        simp only [List.cons_append] at heq
        cases heq
        right
        exact ⟨ps, post, rfl, fun x hx => hnl x (by simp [hx]), ht⟩
  · rintro (⟨hpre, ht⟩ | ⟨pre, post, heq, hnl, ht⟩)
    · refine ⟨[], v.drop lr.length, ?_, by simp, ht⟩
      have hv := eq_append_drop_of_isPrefixOf hpre
      simp only [List.nil_append, List.cons_append]
      rw [← hv]
    · refine ⟨'_' :: pre, post, by rw [heq]; rfl, ?_, ht⟩
      intro x hx
      rcases List.mem_cons.mp hx with rfl | hx2
      · decide
      · exact hnl x hx2

theorem marker_isPrefixOf_seg {M : List Char} (hM : '_' ∉ M) :
    ∀ {x : List Char}, '_' ∉ x → ∀ (t r : List Char),
      ((M ++ '_' :: t).isPrefixOf (x ++ '_' :: r) = true ↔ (x = M ∧ t.isPrefixOf r = true)) := by
  induction M with
  | nil =>
      intro x hx t r
      cases x with
      | nil =>
          simp only [List.nil_append, List.isPrefixOf, Bool.and_eq_true, beq_iff_eq]
      | cons a x2 =>
          have ha : ¬('_' = a) := fun hh => hx (by simp [hh.symm])
          simp only [List.nil_append, List.cons_append, List.isPrefixOf, Bool.and_eq_true,
            beq_iff_eq]
          constructor
          · rintro ⟨h1, -⟩
            exact absurd h1 ha
          · rintro ⟨h1, -⟩
            simp at h1
  | cons b M2 ih =>
      intro x hx t r
      have hb : b ≠ '_' := fun hh => hM (by simp [hh])
      have hM2 : '_' ∉ M2 := fun hh => hM (by simp [hh])
      cases x with
      | nil =>
          simp only [List.nil_append, List.cons_append, List.isPrefixOf, Bool.and_eq_true,
            beq_iff_eq]
          constructor
          · rintro ⟨h1, -⟩
            exact absurd h1 hb
          · rintro ⟨h1, -⟩
            simp at h1
      | cons a x2 =>
          have hx2 : '_' ∉ x2 := fun hh => hx (by simp [hh])
          simp only [List.cons_append, List.isPrefixOf, Bool.and_eq_true, beq_iff_eq,
            List.append_eq]
          rw [ih hM2 hx2 t r]
          constructor
          · rintro ⟨rfl, rfl, h2⟩
            exact ⟨rfl, h2⟩
          · rintro ⟨heq, h2⟩
            cases heq
            exact ⟨rfl, rfl, h2⟩

theorem marker_not_isPrefixOf_clean {M : List Char} :
    ∀ {z : List Char}, '_' ∉ z → ∀ (t : List Char),
      ¬ (M ++ '_' :: t).isPrefixOf z = true := by
  induction M with
  | nil =>
      intro z hz t h
      cases z with
      | nil => simp [List.isPrefixOf] at h
      | cons a z2 =>
          have ha : a ≠ '_' := fun hh => hz (by simp [hh])
          simp only [List.nil_append, List.isPrefixOf, Bool.and_eq_true, beq_iff_eq] at h
          exact ha h.1.symm
  | cons b M2 ih =>
      intro z hz t h
      cases z with
      | nil => simp [List.isPrefixOf] at h
      | cons a z2 =>
          have hz2 : '_' ∉ z2 := fun hh => hz (by simp [hh])
          simp only [List.cons_append, List.isPrefixOf, Bool.and_eq_true, beq_iff_eq] at h
          exact ih hz2 t h.2

end Changes

end MiniBuildd

namespace MiniBuildd

namespace Changes

theorem tailMatch_arch {a : List Char} (hne : a ≠ []) (hu : '_' ∉ a) :
    tailMatch (a ++ ".changes".toList) = true := by
  have hsplit : a ++ ".changes".toList = (a ++ ['.']) ++ "changes".toList := by
    simp
  have hlen : (a ++ ".changes".toList).length = a.length + 8 := by
    simp
  have h7 : (a ++ ".changes".toList).length - 7 = (a ++ ['.']).length := by
    rw [hlen]
    simp
  have h8 : (a ++ ".changes".toList).length - 8 = a.length := by
    rw [hlen]
    omega
  have hpos : 1 ≤ a.length := List.length_pos.mpr hne
  simp only [tailMatch, Bool.and_eq_true, decide_eq_true_eq]
  refine ⟨⟨⟨?_, ?_⟩, ?_⟩, ?_⟩
  · rw [hlen]
    omega
  · rw [h7, hsplit, List.drop_left]
    simp
  · rw [h8, List.take_left]
    rw [List.all_eq_true]
    intro c hc
    have hcne : c ≠ '_' := fun hh => hu (hh ▸ hc)
    simp [hcne]
  · rw [h8, List.drop_left]
    decide

end Changes

end MiniBuildd

namespace MiniBuildd

namespace Changes

theorem no_occurrence_three {M x y z : List Char}
    (hM : '_' ∉ M) (hx : '_' ∉ x) (hy : '_' ∉ y) (hz : '_' ∉ z) (hyM : y ≠ M) :
    ¬ Occurs0 ('_' :: (M ++ ['_'])) (x ++ '_' :: (y ++ '_' :: z)) := by
  intro h
  rw [occurs0_skip_clean hx] at h
  obtain ⟨-, h⟩ := h
  rw [occurs0_underscore_cons] at h
  rcases h with ⟨hpre, -⟩ | h
  · exact hyM ((marker_isPrefixOf_seg hM hy [] z).mp hpre).1
  · rw [occurs0_skip_clean hy] at h
    obtain ⟨-, h⟩ := h
    rw [occurs0_underscore_cons] at h
    rcases h with ⟨hpre, -⟩ | h
    · exact marker_not_isPrefixOf_clean hz [] hpre
    · have h2 : Occurs0 ('_' :: (M ++ ['_'])) (z ++ []) := by simpa using h
      rw [occurs0_skip_clean hz] at h2
      exact occurs0_nil (by simp) h2.2

theorem no_occurrence_four {M x y w z : List Char}
    (hM : '_' ∉ M) (hx : '_' ∉ x) (hy : '_' ∉ y) (hw : '_' ∉ w) (hz : '_' ∉ z)
    (hyM : y ≠ M) (hwM : w ≠ M) :
    ¬ Occurs0 ('_' :: (M ++ ['_'])) (x ++ '_' :: (y ++ '_' :: (w ++ '_' :: z))) := by
  intro h
  rw [occurs0_skip_clean hx] at h
  obtain ⟨-, h⟩ := h
  rw [occurs0_underscore_cons] at h
  rcases h with ⟨hpre, -⟩ | h
  · exact hyM ((marker_isPrefixOf_seg hM hy [] (w ++ '_' :: z)).mp hpre).1
  · exact no_occurrence_three hM hy hw hz hwM h

theorem occurs1_name {M pfx v post : List Char}
    (hname : ∀ c ∈ pfx ++ '_' :: v, c ≠ '\n') (ht : tailMatch post = true) :
    Occurs1 ('_' :: (M ++ ['_']))
      ((pfx ++ '_' :: v) ++ ('_' :: (M ++ ['_'])) ++ post) := by
  refine ⟨pfx ++ '_' :: v, post, rfl, by simp, hname, ht⟩

theorem mem_takeWhile_pred {pp : Char → Bool} {x : Char} :
    ∀ {l : List Char}, x ∈ l.takeWhile pp → pp x = true := by
  intro l
  induction l with
  | nil => intro h; simp [List.takeWhile] at h
  | cons c rest ih =>
      intro h
      rw [List.takeWhile_cons] at h
      by_cases hc : pp c
      · rw [if_pos hc] at h
        rcases List.mem_cons.mp h with rfl | h2
        · exact hc
        · exact ih h2
      · rw [if_neg hc] at h
        simp at h

theorem takeWhile_eq_self_of_all {pp : Char → Bool} :
    ∀ {l : List Char}, (∀ c ∈ l, pp c = true) → l.takeWhile pp = l := by
  intro l
  induction l with
  | nil => intro _; rfl
  | cons c rest ih =>
      intro h
      rw [List.takeWhile_cons, if_pos (h c (by simp))]
      rw [ih (fun d hd => h d (by simp [hd]))]

theorem stripEpoch_no_colon (v : List Char) : ':' ∉ stripEpoch v := by
  intro h
  rw [stripEpoch, List.mem_reverse] at h
  have := mem_takeWhile_pred h
  simp at this

theorem stripEpoch_eq_self {w : List Char} (h : ':' ∉ w) : stripEpoch w = w := by
  rw [stripEpoch, takeWhile_eq_self_of_all, List.reverse_reverse]
  intro c hc
  rw [List.mem_reverse] at hc
  have : c ≠ ':' := fun hh => h (hh ▸ hc)
  simp [this]

theorem stripEpoch_idem (v : List Char) : stripEpoch (stripEpoch v) = stripEpoch v :=
  stripEpoch_eq_self (stripEpoch_no_colon v)

end Changes

end MiniBuildd

/-- Counterexample to claim C7: a version string that contains no
underscore but equals the buildrequest marker makes the generated upload
file name classify as a buildrequest, so classification does not return
the kind it was generated with. -/
theorem C7_counterexample_marker_version :
    MiniBuildd.Changes.classify
        (MiniBuildd.Changes.genChangesFileName "pkg".toList
          "mini-buildd-buildrequest".toList "amd64".toList .default) =
      MiniBuildd.Changes.CType.breq ∧
    MiniBuildd.Changes.CType.breq ≠ MiniBuildd.Changes.CType.default := by
  exact ⟨by decide, by decide⟩

/-- Claim C7 (amended): the generated changes file name is
PACKAGE_VERSION[_MARKER]_ARCH.changes with the epoch stripped from VERSION
and the marker empty for uploads, mini-buildd-buildrequest for requests
and mini-buildd-buildresult for results; classifying the generated name
returns exactly the kind it was generated with, provided package, version
and architecture contain no underscore, the architecture is nonempty,
package and epoch-stripped version contain no newline, and the
epoch-stripped version is not itself one of the two marker words. -/
theorem C7_gen_classify_roundtrip (p v a : List Char) (t : MiniBuildd.Changes.CType)
    (hpU : '_' ∉ p) (hvU : '_' ∉ MiniBuildd.Changes.stripEpoch v) (haU : '_' ∉ a)
    (hane : a ≠ [])
    (hpN : ∀ c ∈ p, c ≠ '\n') (hvN : ∀ c ∈ MiniBuildd.Changes.stripEpoch v, c ≠ '\n')
    (hv1 : MiniBuildd.Changes.stripEpoch v ≠ "mini-buildd-buildrequest".toList)
    (hv2 : MiniBuildd.Changes.stripEpoch v ≠ "mini-buildd-buildresult".toList) :
    MiniBuildd.Changes.classify (MiniBuildd.Changes.genChangesFileName p v a t) = t ∧
    MiniBuildd.Changes.genChangesFileName p v a t =
      MiniBuildd.Changes.genChangesFileName p (MiniBuildd.Changes.stripEpoch v) a t := by
  have hzc : '_' ∉ a ++ ".changes".toList := by
    intro hmem
    rcases List.mem_append.mp hmem with h1 | h2
    · exact haU h1
    · exact absurd h2 (by decide)
  have hpreN : ∀ c ∈ p ++ '_' :: MiniBuildd.Changes.stripEpoch v, c ≠ '\n' := by
    intro c hc
    rcases List.mem_append.mp hc with h1 | h2
    · exact hpN c h1
    · rcases List.mem_cons.mp h2 with rfl | h3
      · decide
      · exact hvN c h3
  have htm : MiniBuildd.Changes.tailMatch (a ++ ".changes".toList) = true :=
    MiniBuildd.Changes.tailMatch_arch hane haU
  refine ⟨?_, ?_⟩
  · cases t with
    | default =>
        have hshape : MiniBuildd.Changes.genChangesFileName p v a .default =
            p ++ '_' :: ((MiniBuildd.Changes.stripEpoch v) ++
              '_' :: (a ++ ".changes".toList)) := by
          simp [MiniBuildd.Changes.genChangesFileName, MiniBuildd.Changes.TYPE2FILENAME_ID]
        have hne1 : ¬ MiniBuildd.Changes.Occurs0
            ('_' :: ("mini-buildd-buildrequest".toList ++ ['_']))
            (MiniBuildd.Changes.genChangesFileName p v a .default) := by
          rw [hshape]
          exact MiniBuildd.Changes.no_occurrence_three (by decide) hpU hvU hzc hv1
        have hne2 : ¬ MiniBuildd.Changes.Occurs0
            ('_' :: ("mini-buildd-buildresult".toList ++ ['_']))
            (MiniBuildd.Changes.genChangesFileName p v a .default) := by
          rw [hshape]
          exact MiniBuildd.Changes.no_occurrence_three (by decide) hpU hvU hzc hv2
        have hm1 : MiniBuildd.Changes.changesMatch MiniBuildd.Changes.breqLit
            (MiniBuildd.Changes.genChangesFileName p v a .default) = false := by
          cases hcm : MiniBuildd.Changes.changesMatch MiniBuildd.Changes.breqLit
              (MiniBuildd.Changes.genChangesFileName p v a .default) with
          | false => rfl
          | true =>
              have ho := MiniBuildd.Changes.occurs1_to_occurs0
                ((MiniBuildd.Changes.changesMatch_iff (by decide) _).mp hcm)
              rw [show MiniBuildd.Changes.breqLit =
                  '_' :: ("mini-buildd-buildrequest".toList ++ ['_']) from rfl] at ho
              exact absurd ho hne1
        have hm2 : MiniBuildd.Changes.changesMatch MiniBuildd.Changes.bresLit
            (MiniBuildd.Changes.genChangesFileName p v a .default) = false := by
          cases hcm : MiniBuildd.Changes.changesMatch MiniBuildd.Changes.bresLit
              (MiniBuildd.Changes.genChangesFileName p v a .default) with
          | false => rfl
          | true =>
              have ho := MiniBuildd.Changes.occurs1_to_occurs0
                ((MiniBuildd.Changes.changesMatch_iff (by decide) _).mp hcm)
              rw [show MiniBuildd.Changes.bresLit =
                  '_' :: ("mini-buildd-buildresult".toList ++ ['_']) from rfl] at ho
              exact absurd ho hne2
        simp [MiniBuildd.Changes.classify, hm1, hm2]
    | breq =>
        have hshape : MiniBuildd.Changes.genChangesFileName p v a .breq =
            (p ++ '_' :: MiniBuildd.Changes.stripEpoch v) ++
              ('_' :: ("mini-buildd-buildrequest".toList ++ ['_'])) ++
              (a ++ ".changes".toList) := by
          simp [MiniBuildd.Changes.genChangesFileName, MiniBuildd.Changes.TYPE2FILENAME_ID]
        have hocc : MiniBuildd.Changes.Occurs1
            ('_' :: ("mini-buildd-buildrequest".toList ++ ['_']))
            (MiniBuildd.Changes.genChangesFileName p v a .breq) := by
          rw [hshape]
          exact MiniBuildd.Changes.occurs1_name hpreN htm
        have hm1 : MiniBuildd.Changes.changesMatch MiniBuildd.Changes.breqLit
            (MiniBuildd.Changes.genChangesFileName p v a .breq) = true := by
          rw [MiniBuildd.Changes.changesMatch_iff (by decide)]
          rw [show MiniBuildd.Changes.breqLit =
              '_' :: ("mini-buildd-buildrequest".toList ++ ['_']) from rfl]
          exact hocc
        simp [MiniBuildd.Changes.classify, hm1]
    | bres =>
        have hshape4 : MiniBuildd.Changes.genChangesFileName p v a .bres =
            p ++ '_' :: (MiniBuildd.Changes.stripEpoch v ++
              '_' :: ("mini-buildd-buildresult".toList ++
                '_' :: (a ++ ".changes".toList))) := by
          simp [MiniBuildd.Changes.genChangesFileName, MiniBuildd.Changes.TYPE2FILENAME_ID]
        have hne1 : ¬ MiniBuildd.Changes.Occurs0
            ('_' :: ("mini-buildd-buildrequest".toList ++ ['_']))
            (MiniBuildd.Changes.genChangesFileName p v a .bres) := by
          rw [hshape4]
          exact MiniBuildd.Changes.no_occurrence_four (by decide) hpU hvU (by decide) hzc
            hv1 (by decide)
        have hm1 : MiniBuildd.Changes.changesMatch MiniBuildd.Changes.breqLit
            (MiniBuildd.Changes.genChangesFileName p v a .bres) = false := by
          cases hcm : MiniBuildd.Changes.changesMatch MiniBuildd.Changes.breqLit
              (MiniBuildd.Changes.genChangesFileName p v a .bres) with
          | false => rfl
          | true =>
              have ho := MiniBuildd.Changes.occurs1_to_occurs0
                ((MiniBuildd.Changes.changesMatch_iff (by decide) _).mp hcm)
              rw [show MiniBuildd.Changes.breqLit =
                  '_' :: ("mini-buildd-buildrequest".toList ++ ['_']) from rfl] at ho
              exact absurd ho hne1
        have hshape : MiniBuildd.Changes.genChangesFileName p v a .bres =
            (p ++ '_' :: MiniBuildd.Changes.stripEpoch v) ++
              ('_' :: ("mini-buildd-buildresult".toList ++ ['_'])) ++
              (a ++ ".changes".toList) := by
          simp [MiniBuildd.Changes.genChangesFileName, MiniBuildd.Changes.TYPE2FILENAME_ID]
        have hocc : MiniBuildd.Changes.Occurs1
            ('_' :: ("mini-buildd-buildresult".toList ++ ['_']))
            (MiniBuildd.Changes.genChangesFileName p v a .bres) := by
          rw [hshape]
          exact MiniBuildd.Changes.occurs1_name hpreN htm
        have hm2 : MiniBuildd.Changes.changesMatch MiniBuildd.Changes.bresLit
            (MiniBuildd.Changes.genChangesFileName p v a .bres) = true := by
          rw [MiniBuildd.Changes.changesMatch_iff (by decide)]
          rw [show MiniBuildd.Changes.bresLit =
              '_' :: ("mini-buildd-buildresult".toList ++ ['_']) from rfl]
          exact hocc
        simp [MiniBuildd.Changes.classify, hm1, hm2]
  · simp [MiniBuildd.Changes.genChangesFileName, MiniBuildd.Changes.stripEpoch_idem]

/-- Witness for the amended C7 at concrete inputs (an epoch-bearing
version, all three kinds). -/
theorem C7_gen_classify_roundtrip_witness :
    (MiniBuildd.Changes.classify
        (MiniBuildd.Changes.genChangesFileName "mypkg".toList "7:1.2.3-1".toList
          "mips".toList .default) = MiniBuildd.Changes.CType.default ∧
      MiniBuildd.Changes.genChangesFileName "mypkg".toList "7:1.2.3-1".toList
          "mips".toList .default =
        MiniBuildd.Changes.genChangesFileName "mypkg".toList
          (MiniBuildd.Changes.stripEpoch "7:1.2.3-1".toList) "mips".toList .default) ∧
    (MiniBuildd.Changes.classify
        (MiniBuildd.Changes.genChangesFileName "mypkg".toList "7:1.2.3-1".toList
          "mips".toList .breq) = MiniBuildd.Changes.CType.breq) ∧
    (MiniBuildd.Changes.classify
        (MiniBuildd.Changes.genChangesFileName "mypkg".toList "7:1.2.3-1".toList
          "mips".toList .bres) = MiniBuildd.Changes.CType.bres) := by
  have h1 := C7_gen_classify_roundtrip "mypkg".toList "7:1.2.3-1".toList "mips".toList
    .default (by decide) (by decide) (by decide) (by decide) (by decide) (by decide)
    (by decide) (by decide)
  have h2 := C7_gen_classify_roundtrip "mypkg".toList "7:1.2.3-1".toList "mips".toList
    .breq (by decide) (by decide) (by decide) (by decide) (by decide) (by decide)
    (by decide) (by decide)
  have h3 := C7_gen_classify_roundtrip "mypkg".toList "7:1.2.3-1".toList "mips".toList
    .bres (by decide) (by decide) (by decide) (by decide) (by decide) (by decide)
    (by decide) (by decide)
  exact ⟨⟨h1.1, h1.2⟩, h2.1, h3.1⟩

namespace MiniBuildd

namespace Ver

theorem stampOk_length {s : List Char} (h : stampOk s = true) : s.length = 14 := by
  simp only [stampOk, Bool.and_eq_true, beq_iff_eq] at h
  exact h.1

theorem stampOk_all {s : List Char} (h : stampOk s = true) :
    s.all Char.isDigit = true := by
  simp only [stampOk, Bool.and_eq_true] at h
  exact h.2

theorem stampOk_digits {s : List Char} (h : stampOk s = true) :
    ∀ c ∈ s, c.isDigit = true := by
  have := stampOk_all h
  rw [List.all_eq_true] at this
  exact this

theorem all_take_of_all {p : Char → Bool} {l : List Char} (h : l.all p = true)
    (n : Nat) : (l.take n).all p = true := by
  rw [List.all_eq_true] at h ⊢
  intro x hx
  exact h x (List.mem_of_mem_take hx)

theorem matchHead_nil : matchHead [] = false := by decide

theorem matchHead_cons_ne {c : Char} {t : List Char} (h : ¬ c = '+') :
    matchHead (c :: t) = false := by
  have hb : ('+' == c) = false := by
    rw [beq_eq_false_iff_ne]
    exact fun he => h he.symm
  have hlit : rebuiltLit = '+' :: "rebuilt".toList := rfl
  rw [matchHead, hlit]
  simp [List.isPrefixOf, hb]

theorem matchHead_at_lit {Sx z : List Char} (h : stampOk Sx = true) :
    matchHead (rebuiltLit ++ (Sx ++ z)) = true := by
  have h14 := stampOk_length h
  have hp : rebuiltLit.isPrefixOf (rebuiltLit ++ (Sx ++ z)) = true :=
    isPrefixOf_append_self _ _
  have hd : (rebuiltLit ++ (Sx ++ z)).drop 8 = Sx ++ z := by
    have h8 : rebuiltLit.length = 8 := rfl
    rw [← h8, List.drop_left]
  have ht : (Sx ++ z).take 14 = Sx := by
    rw [← h14]
    exact List.take_left Sx z
  rw [matchHead]
  rw [hd, ht, hp, h]
  rfl

theorem drop_lit_stamp {Sx z : List Char} (h14 : Sx.length = 14) {k : Nat}
    (hk : 22 ≤ k) : (rebuiltLit ++ (Sx ++ z)).drop k = z.drop (k - 22) := by
  have hassoc : rebuiltLit ++ (Sx ++ z) = (rebuiltLit ++ Sx) ++ z :=
    (List.append_assoc _ _ _).symm
  have hlen : (rebuiltLit ++ Sx).length = 22 := by
    rw [List.length_append, h14]
    rfl
  rw [hassoc, List.drop_append_eq_append_drop, hlen]
  have h1 : (rebuiltLit ++ Sx).drop k = [] := by
    apply List.drop_eq_nil_of_le
    rw [hlen]
    omega
  rw [h1, List.nil_append]

theorem length_ge_of_matchHead {s : List Char} (h : matchHead s = true) :
    22 ≤ s.length := by
  simp only [matchHead, Bool.and_eq_true] at h
  have := stampOk_length h.2
  rw [List.length_take, List.length_drop] at this
  omega

theorem isPrefixOf_take_of_le :
    ∀ (l : List Char) {n : Nat} (s : List Char), l.length ≤ n →
      l.isPrefixOf (s.take n) = l.isPrefixOf s := by
  intro l
  induction l with
  | nil => intro n s _; simp [List.isPrefixOf]
  | cons c cl ih =>
    intro n s hn
    cases n with
    | zero => simp at hn
    | succ m =>
      cases s with
      | nil => simp
      | cons a as =>
        have hm : cl.length ≤ m := by
          simp only [List.length_cons] at hn
          omega
        simp only [List.take_succ_cons, List.isPrefixOf, ih as hm]

end Ver

end MiniBuildd

namespace MiniBuildd

namespace Ver

theorem matchHead_take22 (s : List Char) : matchHead (s.take 22) = matchHead s := by
  have h1 : rebuiltLit.isPrefixOf (s.take 22) = rebuiltLit.isPrefixOf s :=
    isPrefixOf_take_of_le rebuiltLit s (by decide)
  have h2 : (s.take 22).drop 8 = (s.drop 8).take 14 := by
    have h := List.drop_take 22 8 s
    norm_num at h
    exact h
  rw [matchHead, matchHead, h1, h2, List.take_take, Nat.min_self]

theorem nomatch_mid {Sx : List Char} (z : List Char) (h : stampOk Sx = true)
    {i : Nat} (hi1 : 1 ≤ i) (hi2 : i ≤ 21) :
    matchHead ((rebuiltLit ++ (Sx ++ z)).drop i) = false := by
  have h8 : rebuiltLit.length = 8 := rfl
  rcases Nat.lt_or_ge i 8 with hlt | hge
  · have hdrop : (rebuiltLit ++ (Sx ++ z)).drop i = rebuiltLit.drop i ++ (Sx ++ z) := by
      rw [List.drop_append_eq_append_drop]
      have h0 : i - rebuiltLit.length = 0 := by omega
      rw [h0, List.drop_zero]
    rw [hdrop]
    have htl : rebuiltLit.drop i = ("rebuilt".toList).drop (i - 1) := by
      have hl : rebuiltLit = '+' :: "rebuilt".toList := rfl
      rw [hl]
      cases i with
      | zero => exact absurd hi1 (by omega)
      | succ i' => simp [List.drop_succ_cons]
    have hne : rebuiltLit.drop i ≠ [] := by
      intro hnil
      have := congrArg List.length hnil
      rw [List.length_drop, h8] at this
      simp at this
      omega
    obtain ⟨d, tl, hd⟩ := List.exists_cons_of_ne_nil hne
    have hdmem : d ∈ ("rebuilt".toList) := by
      have hmem : d ∈ rebuiltLit.drop i := by
        rw [hd]
        exact List.mem_cons_self d tl
      rw [htl] at hmem
      exact List.drop_subset _ _ hmem
    have hdne : ¬ d = '+' := by
      intro he
      rw [he] at hdmem
      exact absurd hdmem (by decide)
    rw [hd]
    exact matchHead_cons_ne hdne
  · have hdrop : (rebuiltLit ++ (Sx ++ z)).drop i = (Sx ++ z).drop (i - 8) := by
      rw [List.drop_append_eq_append_drop]
      have h1 : rebuiltLit.drop i = [] := by
        apply List.drop_eq_nil_of_le
        omega
      rw [h1, h8, List.nil_append]
    have h14 := stampOk_length h
    have hdrop2 : (Sx ++ z).drop (i - 8) = Sx.drop (i - 8) ++ z := by
      rw [List.drop_append_eq_append_drop]
      have h0 : i - 8 - Sx.length = 0 := by omega
      rw [h0, List.drop_zero]
    have hne : Sx.drop (i - 8) ≠ [] := by
      intro hnil
      have := congrArg List.length hnil
      rw [List.length_drop, h14] at this
      simp at this
      omega
    obtain ⟨d, tl, hd⟩ := List.exists_cons_of_ne_nil hne
    have hdmem : d ∈ Sx := by
      have hmem : d ∈ Sx.drop (i - 8) := by
        rw [hd]
        exact List.mem_cons_self d tl
      exact List.mem_of_mem_drop hmem
    have hdig : d.isDigit = true := stampOk_digits h d hdmem
    have hdne : ¬ d = '+' := by
      intro he
      rw [he] at hdig
      exact absurd hdig (by decide)
    rw [hdrop, hdrop2, hd]
    exact matchHead_cons_ne hdne

theorem take8_indep (u W : List Char) :
    (u ++ (rebuiltLit ++ W)).take 8 = u.take 8 ++ rebuiltLit.take (8 - u.length) := by
  rw [List.take_append_eq_append_take, List.take_append_eq_append_take]
  have h0 : 8 - u.length - rebuiltLit.length = 0 := by
    have h8 : rebuiltLit.length = 8 := rfl
    omega
  rw [h0, List.take_zero, List.append_nil]

theorem slice_exists (u z : List Char) :
    ∃ A B j : _, ∀ Sx : List Char, Sx.length = 14 →
      ((u ++ (rebuiltLit ++ (Sx ++ z))).drop 8).take 14 = A ++ (B ++ Sx.take j) := by
  refine ⟨(u.drop 8).take 14,
    (rebuiltLit.drop (8 - u.length)).take (14 - (u.length - 8)),
    14 - (u.length - 8) - (rebuiltLit.length - (8 - u.length)), ?_⟩
  intro Sx h14
  rw [List.drop_append_eq_append_drop, List.drop_append_eq_append_drop]
  have hm8 : 8 - u.length - rebuiltLit.length = 0 := by
    have h8 : rebuiltLit.length = 8 := rfl
    omega
  rw [hm8, List.drop_zero]
  rw [List.take_append_eq_append_take, List.length_drop]
  rw [List.take_append_eq_append_take, List.length_drop]
  rw [List.take_append_eq_append_take]
  have hz : 14 - (u.length - 8) - (rebuiltLit.length - (8 - u.length)) - Sx.length = 0 := by
    have h8 : rebuiltLit.length = 8 := rfl
    rw [h8, h14]
    omega
  rw [hz, List.take_zero, List.append_nil]

theorem matchHead_congr_stamp {S S' : List Char} (u z : List Char)
    (hS : stampOk S = true) (hS' : stampOk S' = true) :
    matchHead (u ++ (rebuiltLit ++ (S ++ z))) =
      matchHead (u ++ (rebuiltLit ++ (S' ++ z))) := by
  obtain ⟨A, B, j, hdec⟩ := slice_exists u z
  have h14 := stampOk_length hS
  have h14' := stampOk_length hS'
  have e1 := hdec S h14
  have e2 := hdec S' h14'
  have h8le : rebuiltLit.length ≤ 8 := by decide
  have htk : (u ++ (rebuiltLit ++ (S ++ z))).take 8 = (u ++ (rebuiltLit ++ (S' ++ z))).take 8 :=
    (take8_indep u (S ++ z)).trans (take8_indep u (S' ++ z)).symm
  have hp : rebuiltLit.isPrefixOf (u ++ (rebuiltLit ++ (S ++ z))) =
      rebuiltLit.isPrefixOf (u ++ (rebuiltLit ++ (S' ++ z))) := by
    rw [← isPrefixOf_take_of_le rebuiltLit (u ++ (rebuiltLit ++ (S ++ z))) h8le,
      ← isPrefixOf_take_of_le rebuiltLit (u ++ (rebuiltLit ++ (S' ++ z))) h8le, htk]
  have hlen : (A ++ (B ++ S.take j)).length = (A ++ (B ++ S'.take j)).length := by
    simp [List.length_append, List.length_take, h14, h14']
  have ha : (A ++ (B ++ S.take j)).all Char.isDigit =
      (A ++ (B ++ S'.take j)).all Char.isDigit := by
    simp [List.all_append, all_take_of_all (stampOk_all hS) j,
      all_take_of_all (stampOk_all hS') j]
  have hst : stampOk (((u ++ (rebuiltLit ++ (S ++ z))).drop 8).take 14) =
      stampOk (((u ++ (rebuiltLit ++ (S' ++ z))).drop 8).take 14) := by
    rw [e1, e2, stampOk, stampOk, hlen, ha]
  rw [matchHead, matchHead, hp, hst]

end Ver

end MiniBuildd

namespace MiniBuildd

namespace Ver

theorem nomatch_cross {w : List Char} (S' : List Char)
    (hw1 : 1 ≤ w.length) (hw2 : w.length ≤ 21) :
    matchHead (w ++ (rebuiltLit ++ S')) = false := by
  rcases Nat.lt_or_ge w.length 8 with hlt | hge
  · have hpre : rebuiltLit.isPrefixOf (w ++ (rebuiltLit ++ S')) = false := by
      cases hb : rebuiltLit.isPrefixOf (w ++ (rebuiltLit ++ S')) with
      | false => rfl
      | true =>
        exfalso
        have heq := eq_append_drop_of_isPrefixOf hb
        have hL : (w ++ (rebuiltLit ++ S')).drop w.length = rebuiltLit ++ S' :=
          List.drop_left w _
        have hthis := congrArg (List.drop w.length) heq
        rw [hL, List.drop_append_eq_append_drop] at hthis
        have h0 : w.length - rebuiltLit.length = 0 := by
          have h8 : rebuiltLit.length = 8 := rfl
          omega
        rw [h0, List.drop_zero] at hthis
        have hne : rebuiltLit.drop w.length ≠ [] := by
          intro hnil
          have := congrArg List.length hnil
          rw [List.length_drop] at this
          have h8 : rebuiltLit.length = 8 := rfl
          rw [h8] at this
          simp at this
          omega
        obtain ⟨d, tl, hd⟩ := List.exists_cons_of_ne_nil hne
        have hdmem : d ∈ ("rebuilt".toList) := by
          have hmem : d ∈ rebuiltLit.drop w.length := by
            rw [hd]
            exact List.mem_cons_self d tl
          have htl : rebuiltLit.drop w.length = ("rebuilt".toList).drop (w.length - 1) := by
            have hl : rebuiltLit = '+' :: "rebuilt".toList := rfl
            rw [hl]
            cases hwl : w.length with
            | zero => omega
            | succ n' => simp [List.drop_succ_cons]
          rw [htl] at hmem
          exact List.drop_subset _ _ hmem
        rw [hd] at hthis
        have hcons : rebuiltLit ++ S' = '+' :: ("rebuilt".toList ++ S') := rfl
        rw [hcons, List.cons_append] at hthis
        have hdeq : '+' = d := by
          injection hthis
        rw [← hdeq] at hdmem
        exact absurd hdmem (by decide)
    rw [matchHead, hpre, Bool.false_and]
  · have hdrop : (w ++ (rebuiltLit ++ S')).drop 8 = w.drop 8 ++ (rebuiltLit ++ S') := by
      rw [List.drop_append_eq_append_drop]
      have h0 : 8 - w.length = 0 := by omega
      rw [h0, List.drop_zero]
    have htake : ((w ++ (rebuiltLit ++ S')).drop 8).take 14 =
        (w.drop 8).take 14 ++ (rebuiltLit ++ S').take (14 - (w.length - 8)) := by
      rw [hdrop, List.take_append_eq_append_take, List.length_drop]
    obtain ⟨k', hk'⟩ : ∃ k', 14 - (w.length - 8) = k' + 1 :=
      ⟨14 - (w.length - 8) - 1, by omega⟩
    have hx : (rebuiltLit ++ S').take (14 - (w.length - 8)) =
        '+' :: ("rebuilt".toList ++ S').take k' := by
      have hc : rebuiltLit ++ S' = '+' :: ("rebuilt".toList ++ S') := rfl
      rw [hc, hk', List.take_succ_cons]
    have hmem : '+' ∈ ((w ++ (rebuiltLit ++ S')).drop 8).take 14 := by
      rw [htake, hx]
      exact List.mem_append.mpr (Or.inr (List.mem_cons_self _ _))
    have hall : (((w ++ (rebuiltLit ++ S')).drop 8).take 14).all Char.isDigit = false := by
      rw [Bool.eq_false_iff]
      intro hall
      rw [List.all_eq_true] at hall
      exact absurd (hall '+' hmem) (by decide)
    have hst : stampOk (((w ++ (rebuiltLit ++ S')).drop 8).take 14) = false := by
      rw [stampOk, hall, Bool.and_false]
    rw [matchHead, hst, Bool.and_false]

theorem nomatch_append {w : List Char} (S' : List Char) (hw : w ≠ [])
    (hm : matchHead w = false) :
    matchHead (w ++ (rebuiltLit ++ S')) = false := by
  rcases Nat.lt_or_ge w.length 22 with hlt | hge
  · have hpos : 0 < w.length := List.length_pos.mpr hw
    exact nomatch_cross S' (by omega) (by omega)
  · have htk : (w ++ (rebuiltLit ++ S')).take 22 = w.take 22 := by
      rw [List.take_append_eq_append_take]
      have h0 : 22 - w.length = 0 := by omega
      rw [h0, List.take_zero, List.append_nil]
    rw [← matchHead_take22, htk, matchHead_take22, hm]

theorem findRightmost_eq_none_iff (s : List Char) :
    findRightmost s = none ↔ ∀ j : Nat, matchHead (s.drop j) = false := by
  induction s with
  | nil =>
    constructor
    · intro _ j
      rw [List.drop_nil]
      exact matchHead_nil
    · intro _
      rfl
  | cons c rest ih =>
    constructor
    · intro h j
      cases hr : findRightmost rest with
      | some trip => simp [findRightmost, hr] at h
      | none =>
        have hm : matchHead (c :: rest) = false := by
          cases hmc : matchHead (c :: rest) with
          | false => rfl
          | true => simp [findRightmost, hr, hmc] at h
        cases j with
        | zero => simpa using hm
        | succ j' =>
          have hj := (ih.mp hr) j'
          simpa [List.drop_succ_cons] using hj
    · intro h
      have h0 : matchHead (c :: rest) = false := by simpa using h 0
      have hrest : ∀ j, matchHead (rest.drop j) = false := by
        intro j
        have hj := h (j + 1)
        simpa [List.drop_succ_cons] using hj
      have hr := ih.mpr hrest
      simp [findRightmost, hr, h0]

theorem countStamps_congr : ∀ (s s' : List Char), s.length = s'.length →
    (∀ j : Nat, matchHead (s.drop j) = matchHead (s'.drop j)) →
    countStamps s = countStamps s' := by
  intro s
  induction s with
  | nil =>
    intro s' hlen _
    cases s' with
    | nil => rfl
    | cons c' rest' => simp at hlen
  | cons c rest ih =>
    intro s' hlen hmh
    cases s' with
    | nil => simp at hlen
    | cons c' rest' =>
      have h0 : matchHead (c :: rest) = matchHead (c' :: rest') := by
        simpa using hmh 0
      have htail : ∀ j, matchHead (rest.drop j) = matchHead (rest'.drop j) := by
        intro j
        have hj := hmh (j + 1)
        simpa [List.drop_succ_cons] using hj
      have hlen' : rest.length = rest'.length := by simpa using hlen
      simp [countStamps, h0, ih rest' hlen' htail]

theorem countStamps_eq_zero_iff (s : List Char) :
    countStamps s = 0 ↔ findRightmost s = none := by
  induction s with
  | nil => simp [countStamps, findRightmost]
  | cons c rest ih =>
    cases hr : findRightmost rest with
    | some trip =>
      constructor
      · intro h
        have hcr : countStamps rest = 0 := by
          simp only [countStamps] at h
          omega
        have := ih.mp hcr
        rw [this] at hr
        cases hr
      · intro h
        exfalso
        simp [findRightmost, hr] at h
    | none =>
      by_cases hm : matchHead (c :: rest) = true
      · constructor
        · intro h
          exfalso
          simp [countStamps, hm] at h
        · intro h
          exfalso
          simp [findRightmost, hr, hm] at h
      · rw [Bool.not_eq_true] at hm
        constructor
        · intro h
          have hcr : countStamps rest = 0 := by
            simpa [countStamps, hm] using h
          simp [findRightmost, hr, hm]
        · intro _
          have hcr := ih.mpr hr
          simp [countStamps, hm, hcr]

end Ver

end MiniBuildd

namespace MiniBuildd

namespace Ver

theorem findRightmost_cons_none {t : List Char} (h : findRightmost t = none) (c : Char) :
    findRightmost (c :: t) =
      (if matchHead (c :: t) then
        some ([], ((c :: t).drop 8).take 14, (c :: t).drop 22)
      else none) := by
  simp only [findRightmost, h]

theorem findRightmost_cons_some {t p2 s2 t2 : List Char}
    (h : findRightmost t = some (p2, s2, t2)) (c : Char) :
    findRightmost (c :: t) = some (c :: p2, s2, t2) := by
  simp only [findRightmost, h]

theorem findRightmost_lit {S' : List Char} (suf : List Char) (hS' : stampOk S' = true)
    (htail : ∀ j : Nat, matchHead ((rebuiltLit ++ (S' ++ suf)).drop (j + 1)) = false) :
    findRightmost (rebuiltLit ++ (S' ++ suf)) = some ([], S', suf) := by
  have hcons : rebuiltLit ++ (S' ++ suf) = '+' :: ("rebuilt".toList ++ (S' ++ suf)) := rfl
  have htln : findRightmost ("rebuilt".toList ++ (S' ++ suf)) = none := by
    rw [findRightmost_eq_none_iff]
    intro j
    have hj := htail j
    rw [hcons, List.drop_succ_cons] at hj
    exact hj
  have hm' : matchHead ('+' :: ("rebuilt".toList ++ (S' ++ suf))) = true := by
    rw [← hcons]
    exact matchHead_at_lit hS'
  have e1 : (rebuiltLit ++ (S' ++ suf)).drop 8 = S' ++ suf := by
    have h8 : rebuiltLit.length = 8 := rfl
    rw [← h8, List.drop_left]
  have e2 : (S' ++ suf).take 14 = S' := by
    rw [← stampOk_length hS']
    exact List.take_left S' suf
  have e3 : (rebuiltLit ++ (S' ++ suf)).drop 22 = suf := by
    rw [drop_lit_stamp (stampOk_length hS') (le_refl 22)]
    simp
  rw [hcons, findRightmost_cons_none htln '+', hm']
  simp only [eq_self_iff_true, if_true]
  rw [← hcons, e1, e2, e3]

theorem findRightmost_sound_stable : ∀ (v p S suf : List Char),
    findRightmost v = some (p, S, suf) →
    v = p ++ (rebuiltLit ++ (S ++ suf)) ∧ stampOk S = true ∧
    ∀ S' : List Char, stampOk S' = true →
      findRightmost (p ++ (rebuiltLit ++ (S' ++ suf))) = some (p, S', suf) := by
  intro v
  induction v with
  | nil =>
    intro p S suf h
    simp [findRightmost] at h
  | cons c rest ih =>
    intro p S suf h
    cases hr : findRightmost rest with
    | some trip =>
      obtain ⟨p2, s2, t2⟩ := trip
      simp only [findRightmost, hr, Option.some.injEq, Prod.mk.injEq] at h
      obtain ⟨h1, h2, h3⟩ := h
      subst h1
      subst h2
      subst h3
      obtain ⟨hv, hsk, hstab⟩ := ih p2 s2 t2 hr
      refine ⟨?_, hsk, ?_⟩
      · rw [List.cons_append, ← hv]
      · intro S' hS'
        have hs := hstab S' hS'
        rw [List.cons_append]
        simp only [findRightmost, hs]
    | none =>
      have hm : matchHead (c :: rest) = true := by
        cases hmc : matchHead (c :: rest) with
        | true => rfl
        | false => simp [findRightmost, hr, hmc] at h
      simp only [findRightmost, hr, hm, if_true, Option.some.injEq, Prod.mk.injEq] at h
      obtain ⟨h1, h2, h3⟩ := h
      subst h1
      subst h2
      subst h3
      have hmm := hm
      rw [matchHead, Bool.and_eq_true] at hmm
      obtain ⟨hpre, hsl⟩ := hmm
      have h8 : rebuiltLit.length = 8 := rfl
      have hveq : c :: rest = rebuiltLit ++ ((c :: rest).drop 8) := by
        have hq := eq_append_drop_of_isPrefixOf hpre
        rw [h8] at hq
        exact hq
      have hsplit : (c :: rest).drop 8 =
          ((c :: rest).drop 8).take 14 ++ ((c :: rest).drop 8).drop 14 :=
        (List.take_append_drop 14 _).symm
      have hdd : ((c :: rest).drop 8).drop 14 = (c :: rest).drop 22 := by
        rw [List.drop_drop]
      refine ⟨?_, hsl, ?_⟩
      · rw [List.nil_append]
        conv_lhs => rw [hveq, hsplit, hdd]
      · intro S' hS'
        rw [List.nil_append]
        apply findRightmost_lit _ hS'
        intro j
        rcases Nat.lt_or_ge (j + 1) 22 with hj | hj
        · exact nomatch_mid _ hS' (by omega) (by omega)
        · rw [drop_lit_stamp (stampOk_length hS') hj]
          have hrest := (findRightmost_eq_none_iff rest).mp hr
          have hde : ((c :: rest).drop 22).drop (j + 1 - 22) = rest.drop j := by
            rw [List.drop_drop]
            have hn : 22 + (j + 1 - 22) = j + 1 := by omega
            rw [hn, List.drop_succ_cons]
          rw [hde]
          exact hrest j

theorem findRightmost_append_of_none : ∀ (v : List Char), findRightmost v = none →
    ∀ S' : List Char, stampOk S' = true →
      findRightmost (v ++ (rebuiltLit ++ S')) = some (v, S', []) := by
  intro v
  induction v with
  | nil =>
    intro _ S' hS'
    rw [List.nil_append]
    have hnorm : rebuiltLit ++ S' = rebuiltLit ++ (S' ++ []) := by
      rw [List.append_nil]
    rw [hnorm]
    apply findRightmost_lit _ hS'
    intro j
    rcases Nat.lt_or_ge (j + 1) 22 with hj | hj
    · exact nomatch_mid _ hS' (by omega) (by omega)
    · rw [drop_lit_stamp (stampOk_length hS') hj, List.drop_nil]
      exact matchHead_nil
  | cons c rest ih =>
    intro hnone S' hS'
    cases hr : findRightmost rest with
    | some trip => simp [findRightmost, hr] at hnone
    | none =>
      have hih := ih hr S' hS'
      rw [List.cons_append]
      simp only [findRightmost, hih]

theorem countStamps_nil : countStamps [] = 0 := rfl

theorem countStamps_cons (c : Char) (t : List Char) :
    countStamps (c :: t) = (if matchHead (c :: t) then 1 else 0) + countStamps t := rfl

theorem countStamps_append_of_none : ∀ (v : List Char), findRightmost v = none →
    ∀ S' : List Char, stampOk S' = true →
      countStamps (v ++ (rebuiltLit ++ S')) = countStamps v + 1 := by
  intro v
  induction v with
  | nil =>
    intro _ S' hS'
    rw [List.nil_append]
    have hcons : rebuiltLit ++ S' = '+' :: ("rebuilt".toList ++ S') := rfl
    have hm' : matchHead ('+' :: ("rebuilt".toList ++ S')) = true := by
      rw [← hcons]
      have hnorm : rebuiltLit ++ S' = rebuiltLit ++ (S' ++ []) := by
        rw [List.append_nil]
      rw [hnorm]
      exact matchHead_at_lit hS'
    have htn : findRightmost ("rebuilt".toList ++ S') = none := by
      rw [findRightmost_eq_none_iff]
      intro j
      have hj : ("rebuilt".toList ++ S').drop j = (rebuiltLit ++ (S' ++ [])).drop (j + 1) := by
        have h1 : rebuiltLit ++ (S' ++ []) = '+' :: ("rebuilt".toList ++ (S' ++ [])) := rfl
        rw [h1, List.drop_succ_cons, List.append_nil]
      rw [hj]
      rcases Nat.lt_or_ge (j + 1) 22 with hlt | hge
      · exact nomatch_mid _ hS' (by omega) (by omega)
      · rw [drop_lit_stamp (stampOk_length hS') hge, List.drop_nil]
        exact matchHead_nil
    have hc0 : countStamps ("rebuilt".toList ++ S') = 0 :=
      (countStamps_eq_zero_iff _).mpr htn
    rw [hcons, countStamps_cons, hm', hc0, countStamps_nil]
    simp
  | cons c rest ih =>
    intro hnone S' hS'
    cases hr : findRightmost rest with
    | some trip => simp [findRightmost, hr] at hnone
    | none =>
      have hm : matchHead (c :: rest) = false := by
        cases hmc : matchHead (c :: rest) with
        | false => rfl
        | true => simp [findRightmost, hr, hmc] at hnone
      have hmapp : matchHead ((c :: rest) ++ (rebuiltLit ++ S')) = false :=
        nomatch_append S' (by simp) hm
      rw [List.cons_append] at hmapp
      have hih := ih hr S' hS'
      rw [List.cons_append]
      simp only [countStamps, hmapp, hm, hih]
      norm_num

theorem matchHead_drop_congr {S S' : List Char} (p z : List Char)
    (hS : stampOk S = true) (hS' : stampOk S' = true) (j : Nat) :
    matchHead ((p ++ (rebuiltLit ++ (S ++ z))).drop j) =
      matchHead ((p ++ (rebuiltLit ++ (S' ++ z))).drop j) := by
  rcases le_or_lt j p.length with hj | hj
  · have e : ∀ (R : List Char), (p ++ R).drop j = p.drop j ++ R := by
      intro R
      rw [List.drop_append_eq_append_drop]
      have h0 : j - p.length = 0 := by omega
      rw [h0, List.drop_zero]
    rw [e, e]
    exact matchHead_congr_stamp (p.drop j) z hS hS'
  · have e : ∀ (R : List Char), (p ++ R).drop j = R.drop (j - p.length) := by
      intro R
      rw [List.drop_append_eq_append_drop]
      have h1 : p.drop j = [] := List.drop_eq_nil_of_le (by omega)
      rw [h1, List.nil_append]
    rw [e, e]
    rcases le_or_lt 22 (j - p.length) with h22 | h22
    · rw [drop_lit_stamp (stampOk_length hS) h22,
        drop_lit_stamp (stampOk_length hS') h22]
    · rw [nomatch_mid z hS (by omega) (by omega),
        nomatch_mid z hS' (by omega) (by omega)]

theorem countStamps_replace {S S' : List Char} (p z : List Char)
    (hS : stampOk S = true) (hS' : stampOk S' = true) :
    countStamps (p ++ (rebuiltLit ++ (S' ++ z))) =
      countStamps (p ++ (rebuiltLit ++ (S ++ z))) := by
  apply countStamps_congr
  · simp [List.length_append, stampOk_length hS, stampOk_length hS']
  · intro j
    exact (matchHead_drop_congr p z hS hS' j).symm

end Ver

end MiniBuildd

/-- C6: counterexample to the claim as stated. The `+rebuilt` stamp suffix can
appear more than once in the output of gen_internal_rebuild: on a version
string that already carries two stamp suffixes, only the rightmost one is
replaced, so the output still carries two. -/
theorem C6_counterexample_double_stamp :
    MiniBuildd.Ver.stampOk "20130217120517".toList = true ∧
    MiniBuildd.Ver.countStamps
      "1.2.3+rebuilt00000000000000+rebuilt11111111111111".toList = 2 ∧
    MiniBuildd.Ver.countStamps
      (MiniBuildd.Ver.genInternalRebuild "20130217120517".toList
        "1.2.3+rebuilt00000000000000+rebuilt11111111111111".toList) = 2 := by
  exact ⟨by decide, by decide, by decide⟩

/-- Claim C6 (amended): gen_internal_rebuild, parameterised by its 14-digit
time stamp, is idempotent modulo the stamp (applying it twice equals applying
it once with the later stamp); when the input carries at most one `+rebuilt`
stamp suffix, the output carries exactly one (the suffix is appended when
absent and the rightmost occurrence is replaced when present, never appended
to); and applied to "1.2.3" it returns "1.2.3" followed by "+rebuilt" and the
14-digit stamp. -/
theorem C6_internal_rebuild_idempotent_mod_stamp
    (s1 s2 v : List Char)
    (h1 : MiniBuildd.Ver.stampOk s1 = true)
    (h2 : MiniBuildd.Ver.stampOk s2 = true) :
    MiniBuildd.Ver.genInternalRebuild s2 (MiniBuildd.Ver.genInternalRebuild s1 v) =
      MiniBuildd.Ver.genInternalRebuild s2 v ∧
    (MiniBuildd.Ver.countStamps v ≤ 1 →
      MiniBuildd.Ver.countStamps (MiniBuildd.Ver.genInternalRebuild s1 v) = 1) ∧
    MiniBuildd.Ver.genInternalRebuild s1 "1.2.3".toList =
      "1.2.3".toList ++ (MiniBuildd.Ver.rebuiltLit ++ s1) := by
  have h123 : MiniBuildd.Ver.findRightmost ['1', '.', '2', '.', '3'] = none := by decide
  cases hf : MiniBuildd.Ver.findRightmost v with
  | some trip =>
    obtain ⟨p, S, suf⟩ := trip
    obtain ⟨hv, hSok, hstab⟩ := MiniBuildd.Ver.findRightmost_sound_stable v p S suf hf
    have hst1 := hstab s1 h1
    have g1 : MiniBuildd.Ver.genInternalRebuild s1 v =
        p ++ (MiniBuildd.Ver.rebuiltLit ++ (s1 ++ suf)) := by
      simp [MiniBuildd.Ver.genInternalRebuild, hf]
    refine ⟨?_, ?_, ?_⟩
    · rw [g1]
      simp [MiniBuildd.Ver.genInternalRebuild, hst1, hf]
    · intro hcnt
      have hne : MiniBuildd.Ver.countStamps v ≠ 0 := by
        intro h0
        have hn := (MiniBuildd.Ver.countStamps_eq_zero_iff v).mp h0
        rw [hn] at hf
        cases hf
      have hv1 : MiniBuildd.Ver.countStamps v = 1 := by omega
      rw [g1, MiniBuildd.Ver.countStamps_replace p suf hSok h1, ← hv, hv1]
    · simp [MiniBuildd.Ver.genInternalRebuild, h123]
  | none =>
    have g1 : MiniBuildd.Ver.genInternalRebuild s1 v =
        v ++ (MiniBuildd.Ver.rebuiltLit ++ s1) := by
      simp [MiniBuildd.Ver.genInternalRebuild, hf]
    refine ⟨?_, ?_, ?_⟩
    · have happ := MiniBuildd.Ver.findRightmost_append_of_none v hf s1 h1
      rw [g1]
      simp [MiniBuildd.Ver.genInternalRebuild, happ, hf]
    · intro _
      rw [g1, MiniBuildd.Ver.countStamps_append_of_none v hf s1 h1,
        (MiniBuildd.Ver.countStamps_eq_zero_iff v).mpr hf]
    · simp [MiniBuildd.Ver.genInternalRebuild, h123]

/-- Witness: the amended C6 theorem applied at the stamps 20130215100453 and
20130217120517 and the version 1.2.3+rebuilt00000000000000. -/
theorem C6_internal_rebuild_idempotent_mod_stamp_witness :
    MiniBuildd.Ver.stampOk "20130215100453".toList = true ∧
    (MiniBuildd.Ver.genInternalRebuild "20130217120517".toList
        (MiniBuildd.Ver.genInternalRebuild "20130215100453".toList
          "1.2.3+rebuilt00000000000000".toList) =
      MiniBuildd.Ver.genInternalRebuild "20130217120517".toList
        "1.2.3+rebuilt00000000000000".toList ∧
    (MiniBuildd.Ver.countStamps "1.2.3+rebuilt00000000000000".toList ≤ 1 →
      MiniBuildd.Ver.countStamps
        (MiniBuildd.Ver.genInternalRebuild "20130215100453".toList
          "1.2.3+rebuilt00000000000000".toList) = 1) ∧
    MiniBuildd.Ver.genInternalRebuild "20130215100453".toList "1.2.3".toList =
      "1.2.3".toList ++ (MiniBuildd.Ver.rebuiltLit ++ "20130215100453".toList)) :=
  ⟨by decide,
    C6_internal_rebuild_idempotent_mod_stamp "20130215100453".toList
      "20130217120517".toList "1.2.3+rebuilt00000000000000".toList
      (by decide) (by decide)⟩
